import Mathlib

/-!
Verification development for the DaCe core components in this repository:
the BLAS MatMul library node (`dace/libraries/blas/nodes/matmul.py`), the
MapFission dataflow transformation (`dace/transformation/dataflow/map_fission.py`)
and the FPGAGlobalToLocal interstate transformation
(`dace/transformation/interstate/fpga_global_to_local.py`).

The Python code is shallowly embedded: data descriptors become records over
`List Nat`, dictionaries returned by routines become `Option` of a record,
and raised exceptions become `Except.error`.
-/

instance {ε α : Type} [DecidableEq ε] [DecidableEq α] : DecidableEq (Except ε α) := fun x y =>
  match x, y with
  | .ok a, .ok b =>
      if h : a = b then isTrue (by rw [h])
      else isFalse (by intro he; cases he; exact h rfl)
  | .error e, .error f =>
      if h : e = f then isTrue (by rw [h])
      else isFalse (by intro he; cases he; exact h rfl)
  | .ok _, .error _ => isFalse (by intro h; cases h)
  | .error _, .ok _ => isFalse (by intro h; cases h)

/-- Embedding of `dace.data.Array` restricted to the fields the matmul code
reads: `shape`, `strides` (per-dimension symbolic sizes, embedded as naturals)
and the storage class (embedded as a numeric tag). -/
structure Arr where
  shape : List Nat
  strides : List Nat
  storage : Nat
deriving DecidableEq, Repr

/-- The dictionary returned by `get_batchmm_opts` when a batched multiplication
is detected: keys `sa`, `sb`, `sc` (strides) and `b` (batch size). -/
structure BmmOpts where
  sa : Nat
  sb : Nat
  sc : Nat
  b : Nat
deriving DecidableEq, Repr

/-- `x.shape[0]`, the leading dimension of a descriptor (defined when the
rank-3 checks below guarantee the shape is nonempty). -/
def leadDim (x : Arr) : Nat := x.shape.headD 0

/-- `x.strides[0]`, the leading stride of a descriptor. -/
def leadStride (x : Arr) : Nat := x.strides.headD 0

/-- The test `c and len(c.shape) > 3` on the optional output descriptor. -/
def cRankTooLarge (c : Option Arr) : Bool :=
  match c with
  | some cc => decide (3 < cc.shape.length)
  | none => false

/-- Python truthiness test `batch and batch != v` where `batch` is
`None` or an integer: `None` and `0` are falsy, so the inequality is only
consulted when `batch` is a nonzero integer. -/
def pyAndNe (batch : Option Nat) (v : Nat) : Bool :=
  match batch with
  | none => false
  | some k => decide (k ≠ 0) && decide (k ≠ v)

/-- Embedding of `get_batchmm_opts` (matmul.py lines 35-71).  Detects whether
a matrix multiplication is batched and returns its parameters, an empty
dictionary (`none`) if not, or raises (`Except.error`) on rank > 3 or on a
batch-size mismatch that Python's truthiness actually detects. -/
def get_batchmm_opts (a b : Arr) (c : Option Arr) : Except String (Option BmmOpts) :=
  if (decide (3 < a.shape.length) || decide (3 < b.shape.length) || cRankTooLarge c) = true then
    .error "Tensor dimensions too large for (batched) matrix multiplication"
  else if a.shape.length ≤ 2 ∧ b.shape.length ≤ 2 then
    .ok none
  else
    -- batch = None; stride_a, stride_b, stride_c = 0, 0, 0
    let st : Option Nat × Nat :=
      if a.shape.length = 3 then (some (leadDim a), leadStride a)
      else (none, 0)
    let batch := st.1
    let stride_a := st.2
    if b.shape.length = 3 ∧ pyAndNe batch (leadDim b) = true then
      .error "Batch size mismatch for matrix multiplication"
    else
      let st2 : Option Nat × Nat :=
        if b.shape.length = 3 then (some (leadDim b), leadStride b)
        else (batch, 0)
      let batch2 := st2.1
      let stride_b := st2.2
      match c with
      | some cc =>
        if cc.shape.length = 3 ∧ pyAndNe batch2 (leadDim cc) = true then
          .error "Batch size mismatch for matrix multiplication"
        else
          let st3 : Option Nat × Nat :=
            if cc.shape.length = 3 then (some (leadDim cc), leadStride cc)
            else (batch2, 0)
          match st3.1 with
          | none => .ok none
          | some k => .ok (some ⟨stride_a, stride_b, st3.2, k⟩)
      | none =>
        match batch2 with
        | none => .ok none
        | some k => .ok (some ⟨stride_a, stride_b, 0, k⟩)

/-- The leading (batch) dimensions of the rank-3 descriptors among
`a`, `b`, `c`, in the order the source examines them. -/
def rank3leads (a b : Arr) (c : Option Arr) : List Nat :=
  (if a.shape.length = 3 then [leadDim a] else []) ++
  (if b.shape.length = 3 then [leadDim b] else []) ++
  (c.elim [] (fun cc => if cc.shape.length = 3 then [leadDim cc] else []))

/-- An edge incident to the MatMul library node: the connector name on the
node side (`dst_conn` for inputs, `src_conn` for the output), the name of the
array the memlet refers to (`edge.data.data`), and the per-dimension sizes of
the memlet subset (`memlet.subset.size()`). -/
structure MEdge where
  conn : String
  data : String
  subset : List Nat
deriving DecidableEq, Repr

/-- `subset.squeeze()` followed by `size()`: removes the trivial size-1
dimensions of a memlet subset.  (`dace.subsets.Range.squeeze` is outside this
repository; modelled from the spec: "trivial-size-1 dimension removal".) -/
def squeezeSizes (l : List Nat) : List Nat := l.filter (fun s => decide (s ≠ 1))

/-- Python negative indexing `l[-i]` (for `i ≥ 1`): the `i`-th element from
the end, or `none` (an `IndexError`) when the list is too short. -/
def pyNegIdx (l : List Nat) (i : Nat) : Option Nat :=
  if 1 ≤ i ∧ i ≤ l.length then l.get? (l.length - i) else none

/-- The size checks of `MatMul.validate` (matmul.py lines 365-389), applied to
the squeezed input subset sizes `size0` (role `_a`), `size1` (role `_b`) and
squeezed output subset sizes `size2`, given the already-computed batch options
`bopt`.  Python's `size0[-1]`, `size1[-2]`, `size0[-2]`, `size1[-1]` accesses
are embedded with `pyNegIdx`; a failed access is an `IndexError`. -/
def validateSizes (bopt : Option BmmOpts) (size0 size1 size2 : List Nat) :
    Except String Unit :=
  if bopt = none ∧ size0.length ≠ 2 then
    .error "matrix-matrix product only supported on matrices"
  else if bopt = none ∧ size1.length ≠ 2 then
    .error "matrix-matrix product only supported on matrices"
  else
    match pyNegIdx size0 1, pyNegIdx size1 2 with
    | some kA, some kB =>
      if kA ≠ kB then
        .error "Inputs to matrix-matrix product must agree in the k-dimension"
      else if size2.length ≠ 2 ∧ size2.length ≠ 3 then
        .error "matrix-matrix product only supported on matrices"
      else
        match pyNegIdx size0 2, pyNegIdx size1 1 with
        | some m, some n =>
          match bopt with
          | none =>
            if size2 ≠ [m, n] then
              .error "Output to matrix-matrix product must agree in the m and n dimensions"
            else .ok ()
          | some o =>
            if size2 ≠ [o.b, m, n] then
              .error "Output to batch matrix-matrix product must agree in the b, m, and n dimensions"
            else .ok ()
        | _, _ => .error "IndexError"
    | _, _ => .error "IndexError"

/-- Embedding of `MatMul.validate` (matmul.py lines 343-389) over the list of
input edges and output edges of the node and the SDFG array registry
(`sdfg.arrays`, embedded as a total map from names to descriptors).  The
`for` loop binding `size0`/`size1` keeps the last edge with connector `_a`
resp. `_b`; a connector that never occurs leaves the local unbound, which
surfaces as a `NameError` at first use. -/
def MatMul.validate (arrays : String → Arr) (ins outs : List MEdge) :
    Except String Unit :=
  if ins.length ≠ 2 then
    .error "Expected exactly two inputs to matrix-matrix product"
  else if outs.length ≠ 1 then
    .error "Expected exactly one output from matrix-matrix product"
  else
    match ins, outs with
    | e0 :: e1 :: _, eo :: _ =>
      match get_batchmm_opts (arrays e0.data) (arrays e1.data) (some (arrays eo.data)) with
      | .error msg => .error msg
      | .ok bopt =>
        match ((ins.filter (fun e => e.conn = "_a")).getLast?),
              ((ins.filter (fun e => e.conn = "_b")).getLast?) with
        | some ea, some eb =>
          validateSizes bopt (squeezeSizes ea.subset) (squeezeSizes eb.subset)
            (squeezeSizes eo.subset)
        | _, _ => .error "NameError"
    | _, _ => .error "IndexError"

/-- A concrete array registry for the validate witness: a 2x3 input, a 3x4
input and a 2x4 output. -/
def mmArrays0 : String → Arr := fun n =>
  if n = "A" then ⟨[2,3],[3,1],0⟩
  else if n = "B" then ⟨[3,4],[4,1],0⟩
  else ⟨[2,4],[4,1],0⟩

/-- Concrete input edges for the validate witness. -/
def mmIns0 : List MEdge := [⟨"_a","A",[2,3]⟩, ⟨"_b","B",[3,4]⟩]

/-- Concrete output edge for the validate witness. -/
def mmOuts0 : List MEdge := [⟨"_c","C",[2,4]⟩]

/-- Embedding of `_get_matmul_inputs` (matmul.py lines 13-32): iterate the
node's input edges; for each edge with connector `_a` or `_b`, squeeze the
memlet subset, take `(size[-2], size[-1])` (a 2-tuple, embedded as a
two-element list) and pair it with the connected outer array; the last edge
per connector wins.  Missing `_a` or `_b` raises; a squeezed subset of rank
below 2 raises an `IndexError` at `size[-2]`. -/
def get_matmul_inputs (arrays : String → Arr) (ins : List MEdge) :
    Except String ((MEdge × Arr × List Nat) × (MEdge × Arr × List Nat)) :=
  let step : (Option (MEdge × Arr × List Nat) × Option (MEdge × Arr × List Nat)) → MEdge →
      Except String (Option (MEdge × Arr × List Nat) × Option (MEdge × Arr × List Nat)) :=
    fun acc e =>
      if e.conn = "_a" ∨ e.conn = "_b" then
        match pyNegIdx (squeezeSizes e.subset) 2, pyNegIdx (squeezeSizes e.subset) 1 with
        | some m, some n =>
          let res := (e, arrays e.data, [m, n])
          .ok (if e.conn = "_a" then (some res, acc.2) else (acc.1, some res))
        | _, _ => .error "IndexError"
      else .ok acc
  match ins.foldlM step (none, none) with
  | .error msg => .error msg
  | .ok (some ra, some rb) => .ok (ra, rb)
  | .ok _ => .error "Matrix multiplication input connectors _a and _b not found."

/-- The nested SDFG built by the pure MatMul expansion, restricted to what
the claims observe: the shapes of the `_a`, `_b`, `_c` arrays it declares and
their common storage class. -/
structure PureSDFG where
  shape_a : List Nat
  shape_b : List Nat
  shape_c : List Nat
  storage : Nat
deriving DecidableEq, Repr

/-- Embedding of `ExpandMatMulPure.make_sdfg` (matmul.py lines 79-128): reads
the two inputs, checks `len(shape_a) != 2 or len(shape_b) != 2 or
shape_a[1] != shape_b[0]` (the length checks are on the 2-tuples built by
`_get_matmul_inputs`), sets `shape_c = (shape_a[0], shape_b[1])`, requires
equal storage, and declares the three arrays of the nested SDFG. -/
def ExpandMatMulPure.make_sdfg (arrays : String → Arr) (ins : List MEdge) :
    Except String PureSDFG :=
  match get_matmul_inputs arrays ins with
  | .error msg => .error msg
  | .ok ((_, outer_a, shape_a), (_, outer_b, shape_b)) =>
    if shape_a.length ≠ 2 ∨ shape_b.length ≠ 2 ∨ shape_a.getD 1 0 ≠ shape_b.getD 0 0 then
      .error "Matrix sizes must match"
    else
      let shape_c := [shape_a.getD 0 0, shape_b.getD 1 0]
      if outer_a.storage ≠ outer_b.storage then
        .error "Input matrices must have same storage"
      else
        .ok ⟨shape_a, shape_b, shape_c, outer_a.storage⟩

/-- A concrete array registry for the C6 counterexample: `A` is a rank-3
(batched) array, `B` a plain matrix, with equal storage. -/
def c6Arrays : String → Arr := fun n =>
  if n = "A" then ⟨[5,2,3],[6,3,1],0⟩
  else if n = "B" then ⟨[3,4],[4,1],0⟩
  else ⟨[5,2,4],[8,4,1],0⟩

/-! ## MapFission (dace/transformation/dataflow/map_fission.py)

The embedding models the first pattern variant (a bare map with an arbitrary
subgraph, `expr_index = 0`).  A dataflow-state node is a numbered node with a
kind; `code` stands for Tasklets, `nested` for NestedSDFG nodes (both are
`CodeNode`s in the source), `entry`/`exitNode` for inner map scopes. -/

/-- The node kinds `MapFission.can_be_applied` distinguishes. -/
inductive NKind
  | access (data : String)
  | code
  | entry
  | exitNode
  | nested
deriving DecidableEq, Repr

/-- A dataflow-graph node: a stable id plus its kind. -/
structure GNode where
  id : Nat
  kind : NKind
deriving DecidableEq, Repr

/-- A dataflow-graph edge between two nodes. -/
structure GEdge where
  src : GNode
  dst : GNode
deriving DecidableEq, Repr

/-- The data name of an access node, if the node is one. -/
def accessData : GNode → Option String
  | ⟨_, .access d⟩ => some d
  | _ => none

/-- `subgraph.in_edges(n)`. -/
def inEdgesOf (edges : List GEdge) (n : GNode) : List GEdge :=
  edges.filter (fun e => e.dst = n)

/-- `subgraph.out_edges(n)`. -/
def outEdgesOf (edges : List GEdge) (n : GNode) : List GEdge :=
  edges.filter (fun e => e.src = n)

/-- `subgraph.source_nodes()`: nodes with no incoming edge in the subgraph. -/
def sourceNodes (nodes : List GNode) (edges : List GEdge) : List GNode :=
  nodes.filter (fun n => edges.all (fun e => !(e.dst = n : Bool)))

/-- `subgraph.sink_nodes()`: nodes with no outgoing edge in the subgraph. -/
def sinkNodes (nodes : List GNode) (edges : List GEdge) : List GNode :=
  nodes.filter (fun n => edges.all (fun e => !(e.src = n : Bool)))

/-- Embedding of `MapFission._components` (map_fission.py lines 50-66): the
top-level nodes of the subgraph (`scope_dict[None]`) that are `CodeNode`s
(Tasklets or NestedSDFGs) become `(n, n)` components; inner map entries
become `(entry, matching exit)` pairs via `graph.exit_nodes`. -/
def MapFission.components (top : List GNode) (exitOf : Nat → GNode) :
    List (GNode × GNode) :=
  top.filterMap (fun n =>
    match n.kind with
    | .entry => some (n, exitOf n.id)
    | .code => some (n, n)
    | .nested => some (n, n)
    | _ => none)

/-- Embedding of `MapFission._border_arrays` (lines 68-87): data names of
access nodes feeding a component input or fed by a component output; with
`use_sources_sinks` (subgraph views, i.e. the bare-map variant), source and
sink access nodes count as well, otherwise they are excluded. -/
def MapFission.border_arrays (useSS : Bool) (comps : List (GNode × GNode))
    (edges : List GEdge) (sources sinks : List GNode) : List String :=
  comps.foldl (fun acc comp =>
    acc ++
    ((inEdgesOf edges comp.1).filterMap (fun e =>
      match e.src.kind with
      | .access d => if useSS = true ∨ e.src ∉ sources then some d else none
      | _ => none)) ++
    ((outEdgesOf edges comp.2).filterMap (fun e =>
      match e.dst.kind with
      | .access d => if useSS = true ∨ e.dst ∉ sinks then some d else none
      | _ => none))) []

/-- The `inputs` set of `MapFission._internal_border_arrays` (lines 89-104). -/
def MapFission.internal_inputs (comps : List (GNode × GNode)) (edges : List GEdge) :
    List String :=
  comps.foldl (fun acc comp =>
    acc ++ (inEdgesOf edges comp.1).filterMap (fun e => accessData e.src)) []

/-- The `outputs` set of `MapFission._internal_border_arrays` (lines 89-104). -/
def MapFission.internal_outputs (comps : List (GNode × GNode)) (edges : List GEdge) :
    List String :=
  comps.foldl (fun acc comp =>
    acc ++ (outEdgesOf edges comp.2).filterMap (fun e => accessData e.dst)) []

/-- The context `MapFission.can_be_applied` consults for the bare-map pattern
variant: whether the map has dynamic-range inputs (`has_dynamic_map_inputs`
is outside this repository; modelled from the spec as a boolean on the
candidate: "the scope has no dynamically-sized (data-dependent) iteration
range"), the scope subgraph (nodes, edges, `scope_dict[None]` top level,
matching-exit map), the surrounding state's nodes, the access-node contents
of the other states of the SDFG, and the transience flags of `sdfg.arrays`. -/
structure FissionCtx where
  dynamicRange : Bool
  sgNodes : List GNode
  sgEdges : List GEdge
  sgTop : List GNode
  exitOf : Nat → GNode
  stateNodes : List GNode
  otherStates : List (List GNode)
  transient : String → Bool

/-- The border arrays of the candidate scope (`use_sources_sinks` holds for
the bare-map variant because the scope subgraph is a `SubgraphView`). -/
def MapFission.scope_border (g : FissionCtx) : List String :=
  MapFission.border_arrays true (MapFission.components g.sgTop g.exitOf) g.sgEdges
    (sourceNodes g.sgNodes g.sgEdges) (sinkNodes g.sgNodes g.sgEdges)

/-- The `not_subgraph` set of lines 175-182: data names of access nodes of
the state that are outside the scope subgraph, plus data names of access
nodes of every other state of the SDFG. -/
def MapFission.outside_data (g : FissionCtx) : List String :=
  (g.stateNodes.filterMap (fun n => if n ∉ g.sgNodes then accessData n else none)) ++
  (g.otherStates.foldl (fun acc s => acc ++ s.filterMap accessData) [])

/-- Embedding of `MapFission.can_be_applied` (lines 116-190) for the bare-map
pattern variant (`expr_index = 0`). -/
def MapFission.can_be_applied (g : FissionCtx) : Bool :=
  if g.dynamicRange then false
  else
    let comps := MapFission.components g.sgTop g.exitOf
    let snodes := g.sgNodes
    if 0 < snodes.length ∧ comps.length ≤ 1 then false
    else
      let border := MapFission.scope_border g
      if border.any (fun a =>
          !(decide (a ∈ MapFission.internal_inputs comps g.sgEdges) &&
            decide (a ∈ MapFission.internal_outputs comps g.sgEdges))) then false
      else if border.any (fun a => !(g.transient a)) then false
      else if comps.any (fun comp =>
          (outEdgesOf g.sgEdges comp.2).any (fun e =>
            match e.dst.kind with
            | .access d => decide (d ∈ MapFission.outside_data g)
            | _ => false)) then false
      else true

/-- An empty map scope: the candidate map entry/exit enclose no nodes at all,
the map range is static, and no other accesses exist anywhere. -/
def emptyScopeCtx : FissionCtx where
  dynamicRange := false
  sgNodes := []
  sgEdges := []
  sgTop := []
  exitOf := fun _ => ⟨1, .exitNode⟩
  stateNodes := [⟨0, .entry⟩, ⟨1, .exitNode⟩]
  otherStates := []
  transient := fun _ => true

/-- A candidate whose map range has dynamic (data-dependent) inputs. -/
def dynRangeCtx : FissionCtx where
  dynamicRange := true
  sgNodes := [⟨2, .code⟩, ⟨3, .access "t"⟩, ⟨4, .code⟩]
  sgEdges := [⟨⟨2, .code⟩, ⟨3, .access "t"⟩⟩, ⟨⟨3, .access "t"⟩, ⟨4, .code⟩⟩]
  sgTop := [⟨2, .code⟩, ⟨3, .access "t"⟩, ⟨4, .code⟩]
  exitOf := fun _ => ⟨1, .exitNode⟩
  stateNodes := [⟨0, .entry⟩, ⟨1, .exitNode⟩, ⟨2, .code⟩, ⟨3, .access "t"⟩, ⟨4, .code⟩]
  otherStates := []
  transient := fun _ => true

/-- A data descriptor as `MapFission.apply` mutates it (lines 361-369):
shape, strides, `total_size` and per-dimension offsets. -/
structure ArrayDesc where
  shape : List Nat
  strides : List Nat
  total_size : Nat
  offset : List Int
deriving DecidableEq, Repr

/-- The stride entries prepended by the augmentation loop: processing
`reversed(mapsize)` while accumulating `total_size` yields, for position `i`,
the original total size times the product of the map sizes after `i`. -/
def stridePrefix (t : Nat) (ms : List Nat) : List Nat :=
  match ms with
  | [] => []
  | _ :: rest => t * rest.prod :: stridePrefix t rest

/-- Embedding of the border-array augmentation of `MapFission.apply`
(map_fission.py lines 361-369): for each `sz` in `reversed(mapsize)` prepend
the current `total_size` to the strides and multiply `total_size` by `sz`;
then prepend `mapsize` to the shape and zeros to the offset. -/
def MapFission.augment_array (mapsize : List Nat) (d0 : ArrayDesc) : ArrayDesc :=
  let d := mapsize.reverse.foldl
    (fun d sz =>
      { d with
          strides := d.total_size :: d.strides
          total_size := d.total_size * sz }) d0
  { d with shape := mapsize ++ d.shape,
           offset := List.replicate mapsize.length 0 ++ d.offset }

/-- The `for array in arrays` loop of `MapFission.apply`: every border array
of the candidate scope is augmented in the registry, other entries are
untouched. -/
def MapFission.apply_augment (mapsize : List Nat) (borders : List String)
    (reg : String → ArrayDesc) : String → ArrayDesc :=
  fun name =>
    if name ∈ borders then MapFission.augment_array mapsize (reg name) else reg name

/-- The attributes of a `Map` object shared by an entry/exit pair: label,
parameter names, iteration range (one `(begin, end, step)` triple per
parameter), schedule and unroll flag. -/
structure MapAttrs where
  label : String
  params : List String
  range : List (Int × Int × Int)
  schedule : Nat
  unroll : Bool
deriving DecidableEq, Repr

/-- `state.add_map(label, ndrange, schedule, unroll=...)`: builds the shared
`Map` object of a fresh entry/exit pair from the parameter/range pairs. -/
def dace_add_map (label : String) (ndrange : List (String × (Int × Int × Int)))
    (schedule : Nat) (unroll : Bool) : MapAttrs :=
  { label := label
    params := ndrange.map Prod.fst
    range := ndrange.map Prod.snd
    schedule := schedule
    unroll := unroll }

/-- Embedding of the per-component map synthesis of `MapFission.apply`
(map_fission.py lines 291-307): for each component,
`add_map(outer_map.label + '_fission', [(p, '0:1') for p in params],
outer_map.schedule, unroll=outer_map.unroll)` followed by
`me.map.range = dcpy(outer_map.range)` (entry and exit share the `Map`). -/
def MapFission.new_component_maps (outer : MapAttrs) (comps : List (GNode × GNode)) :
    List MapAttrs :=
  comps.map (fun _ =>
    let m := dace_add_map (outer.label ++ "_fission")
      (outer.params.map (fun p => (p, ((0 : Int), 0, 1)))) outer.schedule outer.unroll
    { m with range := outer.range })

/-- Embedding of `graph.remove_nodes_from([map_entry, map_exit])` at the very
end of `MapFission.apply` (line 440), after the per-component nodes have been
added to the state. -/
def MapFission.apply_remove_outer (nodes : List GNode) (map_entry map_exit : GNode)
    (newNodes : List GNode) : List GNode :=
  (nodes ++ newNodes).filter
    (fun n => !(decide (n = map_entry)) && !(decide (n = map_exit)))

/-- Embedding of `FPGAGlobalToLocal.can_be_applied` (fpga_global_to_local.py
lines 32-35): the pattern matches anything and the predicate always returns
`True`. -/
def FPGAGlobalToLocal.can_be_applied {G : Type} (_g : G) : Bool := true

/-- Python `s.startswith(p)`, on the character data of the strings. -/
def strStartsWith (s p : String) : Bool := p.data.isPrefixOf s.data

/-- An edge of the outer graph incident to the candidate map entry or exit
(`graph.in_edges(map_entry)` / `graph.out_edges(map_exit)`): its connector
names, the memlet's array name (`edge.data.data`) and the memlet subset as
`(begin, end, step)` triples. -/
structure OuterEdge where
  dst_conn : Option String
  src_conn : Option String
  data : String
  subset : List (Int × Int × Int)
deriving DecidableEq, Repr

/-- Modelled from the spec: `subsets.Range.from_array` (outside this
repository) builds "the full range derived from the array descriptor", one
`(0, size - 1, 1)` triple per dimension. -/
def Range.from_array (d : ArrayDesc) : List (Int × Int × Int) :=
  d.shape.map (fun s => ((0 : Int), (s : Int) - 1, 1))

/-- Embedding of the inbound half of the nested-SDFG reconnection of
`MapFission.apply` (map_fission.py lines 411-425): every in-edge of the map
entry whose connector starts with `IN_` has its memlet subset replaced by
the full range of the referenced outer array, and is recreated as a direct
edge to the nested-SDFG node carrying a copy of that rewritten memlet;
dynamic-input edges (non-`IN_` connectors) are skipped. -/
def MapFission.reconnect_nested_in (arrays : String → ArrayDesc)
    (inEdges : List OuterEdge) : List OuterEdge :=
  inEdges.filterMap (fun e =>
    match e.dst_conn with
    | some cn =>
        if strStartsWith cn "IN_" then
          some { e with subset := Range.from_array (arrays e.data) }
        else none
    | none => none)

/-- Embedding of the outbound half (lines 427-437): every out-edge of the map
exit has its memlet subset replaced by the full range of the referenced
outer array and is recreated as a direct edge from the nested-SDFG node. -/
def MapFission.reconnect_nested_out (arrays : String → ArrayDesc)
    (outEdges : List OuterEdge) : List OuterEdge :=
  outEdges.map (fun e => { e with subset := Range.from_array (arrays e.data) })

/-! ## FPGAGlobalToLocal (dace/transformation/interstate/fpga_global_to_local.py)

The embedding covers single-level SDFGs: `arrays_recursive()` is the SDFG's
own registry, and the access-node update loop of the source re-targets the
very descriptor that was already reclassified, so only the registry matters. -/

/-- The storage classes the transformation inspects. -/
inductive StorageType
  | Default
  | FPGA_Global
  | FPGA_Local
  | FPGA_Registers
deriving DecidableEq, Repr

/-- A symbolic size expression: a literal constant or a free symbol. -/
inductive SymExpr
  | const (n : Nat)
  | sym (s : String)
deriving DecidableEq, Repr

/-- Modelled from the spec: the external symbolic-resolution service,
`resolve_to_constant(expression, context) -> integer | none`, resolving a
total-size expression to a compile-time constant when possible (symbols are
looked up in the SDFG's constants). -/
def resolve_symbol_to_constant (consts : String → Option Int) : SymExpr → Option Int
  | .const n => some (n : Int)
  | .sym s => consts s

/-- A data descriptor as `FPGAGlobalToLocal.apply` inspects it. -/
structure FDesc where
  transient : Bool
  storage : StorageType
  total_size : SymExpr
deriving DecidableEq, Repr

/-- One iteration of the `for sd, name, desc in sdfg.arrays_recursive()` loop
(fpga_global_to_local.py lines 45-73): a transient, non-shared, FPGA_Global
descriptor with a resolvable total size is reclassified to FPGA_Local and
counted; every other descriptor is kept unchanged. -/
def FPGAGlobalToLocal.step (consts : String → Option Int) (shared : List String)
    (acc : List (String × FDesc) × Nat) (nd : String × FDesc) :
    List (String × FDesc) × Nat :=
  if nd.2.transient = true ∧ nd.1 ∉ shared ∧ nd.2.storage = StorageType.FPGA_Global then
    match resolve_symbol_to_constant consts nd.2.total_size with
    | some _ => (acc.1 ++ [(nd.1, { nd.2 with storage := StorageType.FPGA_Local })], acc.2 + 1)
    | none => (acc.1 ++ [nd], acc.2)
  else (acc.1 ++ [nd], acc.2)

/-- The qualification predicate of the claim: transient, not shared across
states, stored as FPGA_Global, and with a compile-time-constant total size. -/
def FPGAGlobalToLocal.qualifies (consts : String → Option Int) (shared : List String)
    (nd : String × FDesc) : Bool :=
  decide (nd.2.transient = true ∧ nd.1 ∉ shared ∧
    nd.2.storage = StorageType.FPGA_Global) &&
  (resolve_symbol_to_constant consts nd.2.total_size).isSome

/-! ### State-threading semantics for the matching stage

To state that matching never mutates the graph, the graph operations are
given a state-threading semantics: an operation consumes the graph and
returns a value together with the (possibly modified) graph.  `GraphOp.read`
is a query, `GraphOp.write` a mutation; the matching stage is translated
using reads only, mirroring the source, and the read-only theorem is derived
from the composition, branch by branch. -/

/-- An operation on a graph of type `σ`: it returns its result and the graph
it leaves behind. -/
def GraphOp (σ α : Type) : Type := σ → α × σ

/-- A query: computes a value from the graph and leaves the graph behind. -/
def GraphOp.read {σ α : Type} (f : σ → α) : GraphOp σ α := fun g => (f g, g)

/-- A mutation: replaces the graph (used by the rewrite stage, not by
matching; it witnesses that `GraphOp.ReadOnly` below is falsifiable). -/
def GraphOp.write {σ : Type} (f : σ → σ) : GraphOp σ Unit := fun g => ((), f g)

/-- Return a value, leaving the graph untouched. -/
def GraphOp.pureOp {σ α : Type} (a : α) : GraphOp σ α := fun g => (a, g)

/-- Sequencing: run `m`, feed its result to `f`, threading the graph. -/
def GraphOp.bind {σ α β : Type} (m : GraphOp σ α) (f : α → GraphOp σ β) :
    GraphOp σ β :=
  fun g =>
    let r := m g
    f r.1 r.2

/-- A `for`-loop with early exit (`any` over graph operations), as in the
source's `for array in border_arrays: ... return False`. -/
def GraphOp.anyOp {σ α : Type} (l : List α) (f : α → GraphOp σ Bool) :
    GraphOp σ Bool :=
  match l with
  | [] => GraphOp.pureOp false
  | a :: t => GraphOp.bind (f a) (fun b => if b then GraphOp.pureOp true else GraphOp.anyOp t f)

/-- An operation is read-only when it hands back exactly the graph it was
given, on every graph. -/
def GraphOp.ReadOnly {σ α : Type} (m : GraphOp σ α) : Prop := ∀ g, (m g).2 = g

/-- `MapFission.can_be_applied` (map_fission.py lines 116-190, bare-map
variant) translated into the state-threading semantics: every graph access of
the source (`has_dynamic_map_inputs`, `scope_subgraph`/`_components`,
`nodes`, `_border_arrays`, `_internal_border_arrays`, `sdfg.arrays[...]`
lookups, the `not_subgraph` scan and `out_edges`) becomes a `GraphOp.read`,
composed with the source's control flow; no step is a `GraphOp.write`. -/
def MapFission.can_be_applied_st : GraphOp FissionCtx Bool :=
  GraphOp.bind (GraphOp.read (fun g => g.dynamicRange)) (fun dyn =>
    if dyn then GraphOp.pureOp false
    else
      GraphOp.bind (GraphOp.read (fun g => MapFission.components g.sgTop g.exitOf))
        (fun comps =>
      GraphOp.bind (GraphOp.read (fun g => g.sgNodes)) (fun snodes =>
        if 0 < snodes.length ∧ comps.length ≤ 1 then GraphOp.pureOp false
        else
          GraphOp.bind (GraphOp.read MapFission.scope_border) (fun border =>
          GraphOp.bind (GraphOp.read (fun g => MapFission.internal_inputs comps g.sgEdges))
            (fun internalIn =>
          GraphOp.bind (GraphOp.read (fun g => MapFission.internal_outputs comps g.sgEdges))
            (fun internalOut =>
            if border.any (fun a =>
                !(decide (a ∈ internalIn) && decide (a ∈ internalOut))) then
              GraphOp.pureOp false
            else
              GraphOp.bind (GraphOp.anyOp border (fun a =>
                  GraphOp.bind (GraphOp.read (fun g => g.transient a)) (fun t =>
                    GraphOp.pureOp (!t)))) (fun transFail =>
                if transFail then GraphOp.pureOp false
                else
                  GraphOp.bind (GraphOp.read MapFission.outside_data) (fun notSub =>
                  GraphOp.bind (GraphOp.anyOp comps (fun comp =>
                      GraphOp.bind (GraphOp.read (fun g => outEdgesOf g.sgEdges comp.2))
                        (fun es =>
                        GraphOp.pureOp (es.any (fun e =>
                          (match e.dst.kind with
                           | .access d => decide (d ∈ notSub)
                           | _ => false))))))
                    (fun outsideFail =>
                      if outsideFail then GraphOp.pureOp false
                      else GraphOp.pureOp true)))))))))

/-- `FPGAGlobalToLocal.can_be_applied` (fpga_global_to_local.py lines 32-35)
in the state-threading semantics: the body is `return True`, touching
nothing. -/
def FPGAGlobalToLocal.can_be_applied_st {G : Type} : GraphOp G Bool :=
  GraphOp.pureOp true

/-- A nested-SDFG node appearing in a state of the outer SDFG: the nested
SDFG's own array registry and shared transients, plus, for every inner array
whose access nodes trace outward through the node's connectors, the name of
the outer array the trace reaches.  (`trace_nested_access` is outside this
repository; `aliases` is modelled from the spec: "`NestedSDFG`: a node ...
with connectors mapping outer names to inner names".) -/
structure NSdfgNode where
  arrays : List (String × FDesc)
  shared : List String
  aliases : List (String × String)
deriving DecidableEq, Repr

/-- An SDFG with one level of nesting: its own registry and shared
transients, and the nested-SDFG nodes contained in its states.
`arrays_recursive()` (outside this repository) is modelled from the spec's
ownership rule ("a nested graph belongs exclusively to its containing node"):
it visits the outer registry first, then each nested registry in order.
Deeper nesting repeats the same per-registry pattern. -/
structure OSdfg where
  arrays : List (String × FDesc)
  shared : List String
  nested : List NSdfgNode
deriving DecidableEq, Repr

/-- The access-node update loop of `FPGAGlobalToLocal.apply`
(fpga_global_to_local.py lines 57-73), as it acts on one nested-SDFG node
when the outer array `name` has just been reclassified: every access node is
traced (`trace_nested_access`); when the trace reaches an outer access node
of `name`, the access node's own descriptor (`node.desc(graph)`, the entry in
the nested registry) has its storage set to `FPGA_Local` unconditionally --
regardless of that descriptor's own transience, storage or size.  Outer
access nodes of `name` trace to themselves and re-target the already
reclassified outer descriptor, a no-op. -/
def FPGAGlobalToLocal.update_aliases (name : String) (N : NSdfgNode) : NSdfgNode :=
  { N with arrays := N.arrays.map (fun nd =>
      if (nd.1, name) ∈ N.aliases then
        (nd.1, { nd.2 with storage := StorageType.FPGA_Local })
      else nd) }

/-- One outer-registry iteration of the `arrays_recursive` loop (lines
45-73): a qualifying outer descriptor is reclassified and counted, and the
access-node update loop runs over all states, updating each nested-SDFG
node's alias descriptors; a non-qualifying descriptor changes nothing. -/
def FPGAGlobalToLocal.outer_step (consts : String → Option Int) (shared : List String)
    (acc : List (String × FDesc) × List NSdfgNode × Nat) (nd : String × FDesc) :
    List (String × FDesc) × List NSdfgNode × Nat :=
  if nd.2.transient = true ∧ nd.1 ∉ shared ∧ nd.2.storage = StorageType.FPGA_Global then
    match resolve_symbol_to_constant consts nd.2.total_size with
    | some _ =>
        (acc.1 ++ [(nd.1, { nd.2 with storage := StorageType.FPGA_Local })],
         acc.2.1.map (FPGAGlobalToLocal.update_aliases nd.1), acc.2.2 + 1)
    | none => (acc.1 ++ [nd], acc.2.1, acc.2.2)
  else (acc.1 ++ [nd], acc.2.1, acc.2.2)

/-- One nested-registry sweep of the `arrays_recursive` loop: the nested
SDFG's descriptors are visited with the flat per-descriptor step (the nested
SDFG's access nodes trace to themselves, so its own update loop only
re-targets already reclassified descriptors). -/
def FPGAGlobalToLocal.nested_step (consts : String → Option Int)
    (acc : List NSdfgNode × Nat) (N : NSdfgNode) : List NSdfgNode × Nat :=
  let r := N.arrays.foldl (FPGAGlobalToLocal.step consts N.shared) ([], 0)
  (acc.1 ++ [{ N with arrays := r.1 }], acc.2 + r.2)

/-- Embedding of `FPGAGlobalToLocal.apply` (fpga_global_to_local.py lines
41-76) over an SDFG with one level of nesting: fold the outer step over the
outer registry (which also runs the access-node update loop into the nested
nodes), then fold the flat step over each nested registry in visit order;
print the count only when the `debugprint` configuration flag is set (the
returned `Option String` is the printed line). -/
def FPGAGlobalToLocal.apply (consts : String → Option Int) (sdfg : OSdfg)
    (debugprint : Bool) : OSdfg × Nat × Option String :=
  let outerRes := sdfg.arrays.foldl (FPGAGlobalToLocal.outer_step consts sdfg.shared)
    ([], sdfg.nested, 0)
  let nestedRes := outerRes.2.1.foldl (FPGAGlobalToLocal.nested_step consts)
    ([], outerRes.2.2)
  ({ arrays := outerRes.1, shared := sdfg.shared, nested := nestedRes.1 },
   nestedRes.2,
   if debugprint then some ("Applied " ++ toString nestedRes.2 ++ " GlobalToLocal.")
   else none)

/-- Whether the inner array `x` of nested node `N` is an alias of some
qualifying outer array: its trace reaches an outer access node whose
descriptor passes the reclassification test. -/
def FPGAGlobalToLocal.alias_hit (consts : String → Option Int) (sdfg : OSdfg)
    (N : NSdfgNode) (x : String) : Bool :=
  (sdfg.arrays.filter (FPGAGlobalToLocal.qualifies consts sdfg.shared)).any
    (fun q => decide ((x, q.1) ∈ N.aliases))

/-- The C8 counterexample SDFG: after the FPGA transformation, the outer
transient `A` (FPGA_Global, size 8) is connected into one nested SDFG whose
connector array `a_in` is non-transient FPGA_Global and aliases `A`. -/
def c8Sdfg : OSdfg where
  arrays := [("A", ⟨true, StorageType.FPGA_Global, .const 8⟩)]
  shared := []
  nested := [{ arrays := [("a_in", ⟨false, StorageType.FPGA_Global, .const 8⟩)],
               shared := [],
               aliases := [("a_in", "A")] }]

/-- C1 (amended): `get_batchmm_opts` raises on any rank above 3; returns the
empty dictionary when both inputs have rank at most 2; and, when some input
has rank 3 and every rank-3 leading (batch) dimension is nonzero, it returns
batch parameters with the single agreed batch count if all rank-3 leading
dimensions agree, and raises a batch-size-mismatch error if two of them
disagree.  (The nonzero proviso is forced: a zero batch dimension is falsy in
Python, so `if batch and batch != ...` skips the mismatch check.) -/
theorem get_batchmm_opts_amended (a b : Arr) (c : Option Arr) :
    ((3 < a.shape.length ∨ 3 < b.shape.length ∨ (∃ cc, c = some cc ∧ 3 < cc.shape.length)) →
      ∃ msg, get_batchmm_opts a b c = .error msg) ∧
    ((a.shape.length ≤ 2 ∧ b.shape.length ≤ 2 ∧ ∀ cc, c = some cc → cc.shape.length ≤ 3) →
      get_batchmm_opts a b c = .ok none) ∧
    (a.shape.length ≤ 3 → b.shape.length ≤ 3 → (∀ cc, c = some cc → cc.shape.length ≤ 3) →
     (∀ l ∈ rank3leads a b c, l ≠ 0) →
     (a.shape.length = 3 ∨ b.shape.length = 3) →
      ((∀ l1 ∈ rank3leads a b c, ∀ l2 ∈ rank3leads a b c, l1 = l2) →
        ∃ o, get_batchmm_opts a b c = .ok (some o) ∧ ∀ l ∈ rank3leads a b c, l = o.b) ∧
      ((∃ l1 ∈ rank3leads a b c, ∃ l2 ∈ rank3leads a b c, l1 ≠ l2) →
        ∃ msg, get_batchmm_opts a b c = .error msg)) := by
  refine ⟨?_, ?_, ?_⟩
  · intro h
    have hcond : (decide (3 < a.shape.length) || decide (3 < b.shape.length) ||
        cRankTooLarge c) = true := by
      rcases h with h | h | ⟨cc, rfl, h⟩
      · simp [h]
      · simp [h]
      · simp [cRankTooLarge, h]
    exact ⟨_, by unfold get_batchmm_opts; rw [if_pos hcond]⟩
  · rintro ⟨ha, hb, hc⟩
    have hna : ¬ 3 < a.shape.length := by omega
    have hnb : ¬ 3 < b.shape.length := by omega
    have hcond : ¬((decide (3 < a.shape.length) || decide (3 < b.shape.length) ||
        cRankTooLarge c) = true) := by
      rcases c with _ | cc
      · simp [cRankTooLarge, hna, hnb]
      · have := hc cc rfl
        simp [cRankTooLarge, hna, hnb]
        omega
    unfold get_batchmm_opts
    rw [if_neg hcond, if_pos ⟨ha, hb⟩]
  · intro ha hb hc hnz h3
    have hna : ¬ 3 < a.shape.length := by omega
    have hnb : ¬ 3 < b.shape.length := by omega
    have h2 : ¬(a.shape.length ≤ 2 ∧ b.shape.length ≤ 2) := by omega
    rcases c with _ | cc
    · by_cases ha3 : a.shape.length = 3 <;> by_cases hb3 : b.shape.length = 3
      · -- both inputs rank 3, no output
        have hma : leadDim a ∈ rank3leads a b none := by simp [rank3leads, ha3, hb3]
        have hmb : leadDim b ∈ rank3leads a b none := by simp [rank3leads, ha3, hb3]
        have hza : leadDim a ≠ 0 := hnz _ hma
        constructor
        · intro hagree
          have hab := hagree _ hma _ hmb
          refine ⟨⟨leadStride a, leadStride b, 0, leadDim b⟩, ?_, ?_⟩
          · simp [get_batchmm_opts, cRankTooLarge, hna, hnb, h2, ha3, hb3, pyAndNe, hab]
          · intro l hl
            simp [rank3leads, ha3, hb3] at hl
            rcases hl with rfl | rfl
            · exact hab
            · rfl
        · rintro ⟨l1, hm1, l2, hm2, hne⟩
          have hab : leadDim a ≠ leadDim b := by
            simp [rank3leads, ha3, hb3] at hm1 hm2
            rcases hm1 with rfl | rfl <;> rcases hm2 with rfl | rfl <;> omega
          refine ⟨"Batch size mismatch for matrix multiplication", ?_⟩
          simp [get_batchmm_opts, cRankTooLarge, hna, hnb, h2, ha3, hb3, pyAndNe, hza, hab]
      · -- only a rank 3, no output
        constructor
        · intro _
          refine ⟨⟨leadStride a, 0, 0, leadDim a⟩, ?_, ?_⟩
          · simp [get_batchmm_opts, cRankTooLarge, hna, hnb, h2, ha3, hb3, pyAndNe]
          · intro l hl
            simp [rank3leads, ha3, hb3] at hl
            simp [hl]
        · rintro ⟨l1, hm1, l2, hm2, hne⟩
          simp [rank3leads, ha3, hb3] at hm1 hm2
          omega
      · -- only b rank 3, no output
        constructor
        · intro _
          refine ⟨⟨0, leadStride b, 0, leadDim b⟩, ?_, ?_⟩
          · simp [get_batchmm_opts, cRankTooLarge, hna, hnb, h2, ha3, hb3, pyAndNe]
          · intro l hl
            simp [rank3leads, ha3, hb3] at hl
            simp [hl]
        · rintro ⟨l1, hm1, l2, hm2, hne⟩
          simp [rank3leads, ha3, hb3] at hm1 hm2
          omega
      · omega
    · have hcc : cc.shape.length ≤ 3 := hc cc rfl
      have hncc : ¬ 3 < cc.shape.length := by omega
      by_cases ha3 : a.shape.length = 3 <;> by_cases hb3 : b.shape.length = 3 <;>
        by_cases hc3 : cc.shape.length = 3
      · -- a, b, c all rank 3
        have hma : leadDim a ∈ rank3leads a b (some cc) := by
          simp [rank3leads, ha3, hb3, hc3]
        have hmb : leadDim b ∈ rank3leads a b (some cc) := by
          simp [rank3leads, ha3, hb3, hc3]
        have hmc : leadDim cc ∈ rank3leads a b (some cc) := by
          simp [rank3leads, ha3, hb3, hc3]
        have hza : leadDim a ≠ 0 := hnz _ hma
        have hzb : leadDim b ≠ 0 := hnz _ hmb
        constructor
        · intro hagree
          have hab := hagree _ hma _ hmb
          have hbc := hagree _ hmb _ hmc
          refine ⟨⟨leadStride a, leadStride b, leadStride cc, leadDim cc⟩, ?_, ?_⟩
          · simp [get_batchmm_opts, cRankTooLarge, hna, hnb, hncc, h2, ha3, hb3, hc3,
              pyAndNe, hab, hbc]
          · intro l hl
            simp [rank3leads, ha3, hb3, hc3] at hl
            rcases hl with rfl | rfl | rfl
            · exact hab.trans hbc
            · exact hbc
            · rfl
        · rintro ⟨l1, hm1, l2, hm2, hne⟩
          by_cases hab : leadDim a = leadDim b
          · have hbc : leadDim b ≠ leadDim cc := by
              simp [rank3leads, ha3, hb3, hc3] at hm1 hm2
              rcases hm1 with rfl | rfl | rfl <;> rcases hm2 with rfl | rfl | rfl <;> omega
            refine ⟨"Batch size mismatch for matrix multiplication", ?_⟩
            simp [get_batchmm_opts, cRankTooLarge, hna, hnb, hncc, h2, ha3, hb3, hc3,
              pyAndNe, hab, hzb, hbc]
          · refine ⟨"Batch size mismatch for matrix multiplication", ?_⟩
            simp [get_batchmm_opts, cRankTooLarge, hna, hnb, hncc, h2, ha3, hb3, hc3,
              pyAndNe, hza, hab]
      · -- a, b rank 3; c lower rank
        have hma : leadDim a ∈ rank3leads a b (some cc) := by
          simp [rank3leads, ha3, hb3, hc3]
        have hmb : leadDim b ∈ rank3leads a b (some cc) := by
          simp [rank3leads, ha3, hb3, hc3]
        have hza : leadDim a ≠ 0 := hnz _ hma
        constructor
        · intro hagree
          have hab := hagree _ hma _ hmb
          refine ⟨⟨leadStride a, leadStride b, 0, leadDim b⟩, ?_, ?_⟩
          · simp [get_batchmm_opts, cRankTooLarge, hna, hnb, hncc, h2, ha3, hb3, hc3,
              pyAndNe, hab]
          · intro l hl
            simp [rank3leads, ha3, hb3, hc3] at hl
            rcases hl with rfl | rfl
            · exact hab
            · rfl
        · rintro ⟨l1, hm1, l2, hm2, hne⟩
          have hab : leadDim a ≠ leadDim b := by
            simp [rank3leads, ha3, hb3, hc3] at hm1 hm2
            rcases hm1 with rfl | rfl <;> rcases hm2 with rfl | rfl <;> omega
          refine ⟨"Batch size mismatch for matrix multiplication", ?_⟩
          simp [get_batchmm_opts, cRankTooLarge, hna, hnb, hncc, h2, ha3, hb3, hc3,
            pyAndNe, hza, hab]
      · -- a, c rank 3; b lower rank
        have hma : leadDim a ∈ rank3leads a b (some cc) := by
          simp [rank3leads, ha3, hb3, hc3]
        have hmc : leadDim cc ∈ rank3leads a b (some cc) := by
          simp [rank3leads, ha3, hb3, hc3]
        have hza : leadDim a ≠ 0 := hnz _ hma
        constructor
        · intro hagree
          have hac := hagree _ hma _ hmc
          refine ⟨⟨leadStride a, 0, leadStride cc, leadDim cc⟩, ?_, ?_⟩
          · simp [get_batchmm_opts, cRankTooLarge, hna, hnb, hncc, h2, ha3, hb3, hc3,
              pyAndNe, hac]
          · intro l hl
            simp [rank3leads, ha3, hb3, hc3] at hl
            rcases hl with rfl | rfl
            · exact hac
            · rfl
        · rintro ⟨l1, hm1, l2, hm2, hne⟩
          have hac : leadDim a ≠ leadDim cc := by
            simp [rank3leads, ha3, hb3, hc3] at hm1 hm2
            rcases hm1 with rfl | rfl <;> rcases hm2 with rfl | rfl <;> omega
          refine ⟨"Batch size mismatch for matrix multiplication", ?_⟩
          simp [get_batchmm_opts, cRankTooLarge, hna, hnb, hncc, h2, ha3, hb3, hc3,
            pyAndNe, hza, hac]
      · -- only a rank 3
        constructor
        · intro _
          refine ⟨⟨leadStride a, 0, 0, leadDim a⟩, ?_, ?_⟩
          · simp [get_batchmm_opts, cRankTooLarge, hna, hnb, hncc, h2, ha3, hb3, hc3, pyAndNe]
          · intro l hl
            simp [rank3leads, ha3, hb3, hc3] at hl
            simp [hl]
        · rintro ⟨l1, hm1, l2, hm2, hne⟩
          simp [rank3leads, ha3, hb3, hc3] at hm1 hm2
          omega
      · -- b, c rank 3; a lower rank
        have hmb : leadDim b ∈ rank3leads a b (some cc) := by
          simp [rank3leads, ha3, hb3, hc3]
        have hmc : leadDim cc ∈ rank3leads a b (some cc) := by
          simp [rank3leads, ha3, hb3, hc3]
        have hzb : leadDim b ≠ 0 := hnz _ hmb
        constructor
        · intro hagree
          have hbc := hagree _ hmb _ hmc
          refine ⟨⟨0, leadStride b, leadStride cc, leadDim cc⟩, ?_, ?_⟩
          · simp [get_batchmm_opts, cRankTooLarge, hna, hnb, hncc, h2, ha3, hb3, hc3,
              pyAndNe, hbc]
          · intro l hl
            simp [rank3leads, ha3, hb3, hc3] at hl
            rcases hl with rfl | rfl
            · exact hbc
            · rfl
        · rintro ⟨l1, hm1, l2, hm2, hne⟩
          have hbc : leadDim b ≠ leadDim cc := by
            simp [rank3leads, ha3, hb3, hc3] at hm1 hm2
            rcases hm1 with rfl | rfl <;> rcases hm2 with rfl | rfl <;> omega
          refine ⟨"Batch size mismatch for matrix multiplication", ?_⟩
          simp [get_batchmm_opts, cRankTooLarge, hna, hnb, hncc, h2, ha3, hb3, hc3,
            pyAndNe, hzb, hbc]
      · -- only b rank 3
        constructor
        · intro _
          refine ⟨⟨0, leadStride b, 0, leadDim b⟩, ?_, ?_⟩
          · simp [get_batchmm_opts, cRankTooLarge, hna, hnb, hncc, h2, ha3, hb3, hc3, pyAndNe]
          · intro l hl
            simp [rank3leads, ha3, hb3, hc3] at hl
            simp [hl]
        · rintro ⟨l1, hm1, l2, hm2, hne⟩
          simp [rank3leads, ha3, hb3, hc3] at hm1 hm2
          omega
      · omega
      · omega

/-- C1 witness: the amended theorem applied at a concrete agreeing batched
input, where all five hypotheses are discharged by evaluation. -/
theorem get_batchmm_opts_amended_witness :
    ∃ o, get_batchmm_opts ⟨[7,2,3],[6,3,1],0⟩ ⟨[7,3,4],[12,4,1],0⟩ none = .ok (some o) ∧
      ∀ l ∈ rank3leads ⟨[7,2,3],[6,3,1],0⟩ ⟨[7,3,4],[12,4,1],0⟩ none, l = o.b :=
  ((get_batchmm_opts_amended ⟨[7,2,3],[6,3,1],0⟩ ⟨[7,3,4],[12,4,1],0⟩ none).2.2
    (by decide) (by decide) (by decide) (by decide) (by decide)).1 (by decide)

/-- C1 counterexample: the first and second input are both rank 3 and their
leading (batch) dimensions disagree (0 versus 5), yet `get_batchmm_opts`
raises no error and returns batch parameters, because the zero batch
dimension is falsy in Python and is silently overwritten. -/
theorem get_batchmm_opts_zero_batch_counterexample :
    (Arr.mk [0,1,1] [1,1,1] 0).shape.length = 3 ∧
    (Arr.mk [5,1,1] [1,1,1] 0).shape.length = 3 ∧
    (Arr.mk [0,1,1] [1,1,1] 0).shape.headD 0 ≠ (Arr.mk [5,1,1] [1,1,1] 0).shape.headD 0 ∧
    get_batchmm_opts ⟨[0,1,1],[1,1,1],0⟩ ⟨[5,1,1],[1,1,1],0⟩ none = .ok (some ⟨1,1,0,5⟩) := by
  refine ⟨rfl, rfl, by decide, by decide⟩

/-- C10: with both inputs of rank at most 2 and an output of rank at most 3,
`get_batchmm_opts` returns the empty dictionary without inspecting the output
leading dimension: a rank-3 output combined with rank-2 inputs is silently
treated as non-batched. -/
theorem get_batchmm_opts_rank2_inputs_ignore_output (a b cc : Arr)
    (ha : a.shape.length ≤ 2) (hb : b.shape.length ≤ 2) (hcc : cc.shape.length ≤ 3) :
    get_batchmm_opts a b (some cc) = .ok none := by
  have hna : ¬ 3 < a.shape.length := by omega
  have hnb : ¬ 3 < b.shape.length := by omega
  have hncc : ¬ 3 < cc.shape.length := by omega
  unfold get_batchmm_opts
  rw [if_neg (by simp [cRankTooLarge, hna, hnb, hncc]), if_pos ⟨ha, hb⟩]

/-- C10 witness: a rank-3 output with batch dimension 9 combined with plain
rank-2 inputs yields the empty dictionary. -/
theorem get_batchmm_opts_rank2_inputs_ignore_output_witness :
    get_batchmm_opts ⟨[2,3],[3,1],0⟩ ⟨[3,4],[4,1],0⟩ (some ⟨[9,2,4],[8,4,1],0⟩) = .ok none :=
  get_batchmm_opts_rank2_inputs_ignore_output ⟨[2,3],[3,1],0⟩ ⟨[3,4],[4,1],0⟩
    ⟨[9,2,4],[8,4,1],0⟩ (by decide) (by decide) (by decide)

example : get_batchmm_opts ⟨[2,3],[3,1],0⟩ ⟨[3,4],[4,1],0⟩ none = .ok none := by decide

example : get_batchmm_opts ⟨[7,2,3],[6,3,1],0⟩ ⟨[3,4],[4,1],0⟩ none = .ok (some ⟨6,0,0,7⟩) := by decide

example : get_batchmm_opts ⟨[7,2,3],[6,3,1],0⟩ ⟨[5,3,4],[12,4,1],0⟩ none = .error "Batch size mismatch for matrix multiplication" := by decide

example : get_batchmm_opts ⟨[0,1,1],[1,1,1],0⟩ ⟨[5,1,1],[1,1,1],0⟩ none = .ok (some ⟨1,1,0,5⟩) := by decide

example : get_batchmm_opts ⟨[2,3],[3,1],0⟩ ⟨[3,4],[4,1],0⟩ (some ⟨[9,2,4],[8,4,1],0⟩) = .ok none := by decide

example : get_batchmm_opts ⟨[1,2,3,4],[1,1,1,1],0⟩ ⟨[3,4],[4,1],0⟩ none = .error "Tensor dimensions too large for (batched) matrix multiplication" := by decide

example : MatMul.validate
    (fun n => if n = "A" then ⟨[2,3],[3,1],0⟩ else if n = "B" then ⟨[3,4],[4,1],0⟩ else ⟨[2,4],[4,1],0⟩)
    [⟨"_a","A",[2,3]⟩, ⟨"_b","B",[3,4]⟩] [⟨"_c","C",[2,4]⟩] = .ok () := by decide

example : MatMul.validate
    (fun n => if n = "A" then ⟨[7,2,3],[6,3,1],0⟩ else if n = "B" then ⟨[7,3,4],[12,4,1],0⟩ else ⟨[7,2,4],[8,4,1],0⟩)
    [⟨"_a","A",[7,2,3]⟩, ⟨"_b","B",[7,3,4]⟩] [⟨"_c","C",[7,2,4]⟩] = .ok () := by decide

example : MatMul.validate
    (fun n => if n = "A" then ⟨[2,3],[3,1],0⟩ else if n = "B" then ⟨[5,4],[4,1],0⟩ else ⟨[2,4],[4,1],0⟩)
    [⟨"_a","A",[2,3]⟩, ⟨"_b","B",[5,4]⟩] [⟨"_c","C",[2,4]⟩] =
    .error "Inputs to matrix-matrix product must agree in the k-dimension" := by decide

lemma pyNegIdx_some_le {l : List Nat} {i v : Nat} (h : pyNegIdx l i = some v) :
    1 ≤ i ∧ i ≤ l.length := by
  unfold pyNegIdx at h
  split at h
  next hc => exact hc
  next => cases h

lemma get_batchmm_opts_ok_ranks {a b : Arr} {c : Option Arr} {r : Option BmmOpts}
    (h : get_batchmm_opts a b c = .ok r) :
    a.shape.length ≤ 3 ∧ b.shape.length ≤ 3 := by
  unfold get_batchmm_opts at h
  split at h
  · cases h
  next hcond =>
    simp only [Bool.or_eq_true, decide_eq_true_eq, not_or] at hcond
    obtain ⟨⟨h1, h2⟩, h3⟩ := hcond
    omega

lemma validateSizes_ok {bopt : Option BmmOpts} {size0 size1 size2 : List Nat}
    (h : validateSizes bopt size0 size1 size2 = .ok ()) :
    (bopt = none → size0.length = 2 ∧ size1.length = 2) ∧
    2 ≤ size0.length ∧ 2 ≤ size1.length ∧
    pyNegIdx size0 1 = pyNegIdx size1 2 ∧ (pyNegIdx size0 1).isSome = true ∧
    ∃ m n, pyNegIdx size0 2 = some m ∧ pyNegIdx size1 1 = some n ∧
      (bopt = none → size2 = [m, n]) ∧ (∀ o, bopt = some o → size2 = [o.b, m, n]) := by
  unfold validateSizes at h
  split at h
  · cases h
  · next hc0 =>
      split at h
      · cases h
      · next hc1 =>
          split at h
          · next kA kB hkA hkB =>
              split at h
              · cases h
              · next hk =>
                  split at h
                  · cases h
                  · next hlen2 =>
                      split at h
                      · next m n hm hn =>
                          have hkk : kA = kB := by omega
                          have hm2 := pyNegIdx_some_le hm
                          have hn2 := pyNegIdx_some_le hkB
                          refine ⟨?_, by omega, by omega, ?_, ?_, m, n, hm, hn, ?_, ?_⟩
                          · intro hb
                            subst hb
                            constructor
                            · by_contra hx
                              exact hc0 ⟨rfl, hx⟩
                            · by_contra hx
                              exact hc1 ⟨rfl, hx⟩
                          · rw [hkA, hkB, hkk]
                          · rw [hkA]
                            rfl
                          · intro hb
                            subst hb
                            simp only [] at h
                            split at h
                            · cases h
                            · next hs => simpa using hs
                          · intro o hb
                            subst hb
                            simp only [] at h
                            split at h
                            · cases h
                            · next hs => simpa using hs
                      · cases h
          · cases h

/-- C2: the shared `MatMul.validate` contract succeeds only when the node has
exactly two input edges carrying the roles `_a` and `_b` and exactly one
output edge; each squeezed input subset has rank 2 when no batch is detected
and rank 2 or 3 otherwise; the contracted dimensions agree (`size0[-1]`
equals `size1[-2]`); and the squeezed output subset equals `[m, n]` in the
non-batched case and `[batch, m, n]` in the batched case.  The well-formedness
hypothesis states that each memlet subset has one entry per dimension of the
array it refers to. -/
theorem MatMul_validate_success_necessary (arrays : String → Arr) (ins outs : List MEdge)
    (hwf : ∀ e ∈ ins ++ outs, e.subset.length = (arrays e.data).shape.length)
    (hok : MatMul.validate arrays ins outs = .ok ()) :
    ins.length = 2 ∧ outs.length = 1 ∧
    ∃ e0 e1 eo ea eb bopt,
      ins = [e0, e1] ∧ outs = [eo] ∧
      ins.filter (fun e => e.conn = "_a") = [ea] ∧
      ins.filter (fun e => e.conn = "_b") = [eb] ∧
      get_batchmm_opts (arrays e0.data) (arrays e1.data) (some (arrays eo.data)) = .ok bopt ∧
      (bopt = none → (squeezeSizes ea.subset).length = 2 ∧ (squeezeSizes eb.subset).length = 2) ∧
      2 ≤ (squeezeSizes ea.subset).length ∧ (squeezeSizes ea.subset).length ≤ 3 ∧
      2 ≤ (squeezeSizes eb.subset).length ∧ (squeezeSizes eb.subset).length ≤ 3 ∧
      pyNegIdx (squeezeSizes ea.subset) 1 = pyNegIdx (squeezeSizes eb.subset) 2 ∧
      ∃ m n, pyNegIdx (squeezeSizes ea.subset) 2 = some m ∧
        pyNegIdx (squeezeSizes eb.subset) 1 = some n ∧
        (bopt = none → squeezeSizes eo.subset = [m, n]) ∧
        (∀ o, bopt = some o → squeezeSizes eo.subset = [o.b, m, n]) := by
  unfold MatMul.validate at hok
  split at hok
  · cases hok
  · next hlen2 =>
      split at hok
      · cases hok
      · next hlen1 =>
          split at hok
          · next e0 e1 t1 eo t2 =>
              have ht1 : t1 = [] := by
                simp only [ne_eq, List.length_cons, not_not] at hlen2
                have : t1.length = 0 := by omega
                exact List.length_eq_zero.mp this
              have ht2 : t2 = [] := by
                simp only [ne_eq, List.length_cons, not_not] at hlen1
                have : t2.length = 0 := by omega
                exact List.length_eq_zero.mp this
              subst ht1
              subst ht2
              split at hok
              · cases hok
              · next bopt heqb =>
                  split at hok
                  · next ua ub heqa heqb2 =>
                      obtain ⟨V1, V2, V3, V4, V5, m, n, hm, hn, V6, V7⟩ := validateSizes_ok hok
                      obtain ⟨hr0, hr1⟩ := get_batchmm_opts_ok_ranks heqb
                      have hs0 : e0.subset.length = (arrays e0.data).shape.length :=
                        hwf e0 (by simp)
                      have hs1 : e1.subset.length = (arrays e1.data).shape.length :=
                        hwf e1 (by simp)
                      have hub0 : (squeezeSizes e0.subset).length ≤ 3 := by
                        have hf := List.length_filter_le (fun s => decide (s ≠ 1)) e0.subset
                        unfold squeezeSizes
                        omega
                      have hub1 : (squeezeSizes e1.subset).length ≤ 3 := by
                        have hf := List.length_filter_le (fun s => decide (s ≠ 1)) e1.subset
                        unfold squeezeSizes
                        omega
                      refine ⟨rfl, rfl, e0, e1, eo, ua, ub, bopt, rfl, rfl, ?_⟩
                      by_cases ca0 : e0.conn = "_a"
                      · have cb0 : ¬(e0.conn = "_b") := by rw [ca0]; decide
                        have cb1 : e1.conn = "_b" := by
                          by_contra hx
                          have hemp : [e0, e1].filter (fun e => e.conn = "_b") = [] := by
                            simp [List.filter, cb0, hx]
                          rw [hemp] at heqb2
                          cases heqb2
                        have ca1 : ¬(e1.conn = "_a") := by rw [cb1]; decide
                        have hfa : [e0, e1].filter (fun e => e.conn = "_a") = [e0] := by
                          simp [List.filter, ca0, ca1]
                        have hfb : [e0, e1].filter (fun e => e.conn = "_b") = [e1] := by
                          simp [List.filter, cb0, cb1]
                        rw [hfa] at heqa
                        rw [hfb] at heqb2
                        have hua : ua = e0 := by
                          simp only [List.getLast?_singleton, Option.some.injEq] at heqa
                          exact heqa.symm
                        have hub : ub = e1 := by
                          simp only [List.getLast?_singleton, Option.some.injEq] at heqb2
                          exact heqb2.symm
                        subst hua
                        subst hub
                        exact ⟨hfa, hfb, heqb, V1, V2, hub0, V3, hub1, V4, m, n, hm, hn, V6, V7⟩
                      · have ca1 : e1.conn = "_a" := by
                          by_contra hx
                          have hemp : [e0, e1].filter (fun e => e.conn = "_a") = [] := by
                            simp [List.filter, ca0, hx]
                          rw [hemp] at heqa
                          cases heqa
                        have cb1 : ¬(e1.conn = "_b") := by rw [ca1]; decide
                        have cb0 : e0.conn = "_b" := by
                          by_contra hx
                          have hemp : [e0, e1].filter (fun e => e.conn = "_b") = [] := by
                            simp [List.filter, hx, cb1]
                          rw [hemp] at heqb2
                          cases heqb2
                        have hfa : [e0, e1].filter (fun e => e.conn = "_a") = [e1] := by
                          simp [List.filter, ca0, ca1]
                        have hfb : [e0, e1].filter (fun e => e.conn = "_b") = [e0] := by
                          simp [List.filter, cb0, cb1]
                        rw [hfa] at heqa
                        rw [hfb] at heqb2
                        have hua : ua = e1 := by
                          simp only [List.getLast?_singleton, Option.some.injEq] at heqa
                          exact heqa.symm
                        have hub : ub = e0 := by
                          simp only [List.getLast?_singleton, Option.some.injEq] at heqb2
                          exact heqb2.symm
                        subst hua
                        subst hub
                        exact ⟨hfa, hfb, heqb, V1, V2, hub1, V3, hub0, V4, m, n, hm, hn, V6, V7⟩
                  · cases hok
          · cases hok

/-- C2 witness: a concrete well-formed 2x3 by 3x4 product node validates, and
the necessary-conditions theorem applies to it. -/
theorem MatMul_validate_success_necessary_witness :
    MatMul.validate mmArrays0 mmIns0 mmOuts0 = .ok () ∧
    mmIns0.length = 2 ∧ mmOuts0.length = 1 :=
  ⟨by decide,
   (MatMul_validate_success_necessary mmArrays0 mmIns0 mmOuts0 (by decide) (by decide)).1,
   (MatMul_validate_success_necessary mmArrays0 mmIns0 mmOuts0 (by decide) (by decide)).2.1⟩

example : ExpandMatMulPure.make_sdfg mmArrays0 mmIns0 =
    .ok ⟨[2,3],[3,4],[2,4],0⟩ := by decide

lemma pyNegIdx_isSome_of_le {l : List Nat} {i : Nat} (h1 : 1 ≤ i) (h2 : i ≤ l.length) :
    ∃ v, pyNegIdx l i = some v := by
  unfold pyNegIdx
  rw [if_pos ⟨h1, h2⟩]
  have h : l.length - i < l.length := by omega
  exact ⟨l.get ⟨l.length - i, h⟩, List.get?_eq_get h⟩

lemma get_matmul_inputs_pair (arrays : String → Arr) (ea eb : MEdge)
    (hca : ea.conn = "_a") (hcb : eb.conn = "_b")
    {m k k2 n : Nat}
    (hma : pyNegIdx (squeezeSizes ea.subset) 2 = some m)
    (hka : pyNegIdx (squeezeSizes ea.subset) 1 = some k)
    (hkb : pyNegIdx (squeezeSizes eb.subset) 2 = some k2)
    (hnb : pyNegIdx (squeezeSizes eb.subset) 1 = some n) :
    get_matmul_inputs arrays [ea, eb] =
      .ok ((ea, arrays ea.data, [m, k]), (eb, arrays eb.data, [k2, n])) := by
  unfold get_matmul_inputs
  simp only [List.foldlM_cons, List.foldlM_nil, hca, hcb, hma, hka, hkb, hnb]
  rfl

/-- C6 (amended): on a well-role-labelled pair of input edges, the pure
expansion succeeds with output shape `[m, n]` whenever both squeezed subsets
have rank at least 2 (their last two dimensions are taken), the inner
dimensions agree and the storage classes agree; it errors on an inner
dimension mismatch, on a storage mismatch, and on squeezed rank below 2.
The rank-2 length test of the source is vacuous because `_get_matmul_inputs`
always builds 2-tuples, so squeezed ranks above 2 are silently truncated to
the last two dimensions rather than rejected. -/
theorem ExpandMatMulPure_make_sdfg_amended (arrays : String → Arr) (ea eb : MEdge)
    (hca : ea.conn = "_a") (hcb : eb.conn = "_b") :
    (∀ m k k2 n,
      pyNegIdx (squeezeSizes ea.subset) 2 = some m →
      pyNegIdx (squeezeSizes ea.subset) 1 = some k →
      pyNegIdx (squeezeSizes eb.subset) 2 = some k2 →
      pyNegIdx (squeezeSizes eb.subset) 1 = some n →
      ((k = k2 → (arrays ea.data).storage = (arrays eb.data).storage →
         ExpandMatMulPure.make_sdfg arrays [ea, eb] =
           .ok ⟨[m, k], [k2, n], [m, n], (arrays ea.data).storage⟩) ∧
       (k ≠ k2 →
         ExpandMatMulPure.make_sdfg arrays [ea, eb] = .error "Matrix sizes must match") ∧
       ((arrays ea.data).storage ≠ (arrays eb.data).storage →
         ∃ msg, ExpandMatMulPure.make_sdfg arrays [ea, eb] = .error msg))) ∧
    ((squeezeSizes ea.subset).length < 2 ∨ (squeezeSizes eb.subset).length < 2 →
      ∃ msg, ExpandMatMulPure.make_sdfg arrays [ea, eb] = .error msg) := by
  constructor
  · intro m k k2 n hma hka hkb hnb
    have hpair := get_matmul_inputs_pair arrays ea eb hca hcb hma hka hkb hnb
    refine ⟨?_, ?_, ?_⟩
    · intro hkk hst
      simp only [ExpandMatMulPure.make_sdfg, hpair]
      rw [if_neg (by simp [hkk]), if_neg (by simp [hst])]
      rfl
    · intro hkk
      simp only [ExpandMatMulPure.make_sdfg, hpair]
      rw [if_pos (by simp [hkk])]
    · intro hst
      simp only [ExpandMatMulPure.make_sdfg, hpair]
      by_cases hkk : k = k2
      · rw [if_neg (by simp [hkk]), if_pos (by simpa using hst)]
        exact ⟨_, rfl⟩
      · rw [if_pos (by simp [hkk])]
        exact ⟨_, rfl⟩
  · intro hlow
    rcases hlow with hlow | hlow
    · have hnone : pyNegIdx (squeezeSizes ea.subset) 2 = none := by
        unfold pyNegIdx
        rw [if_neg (by omega)]
      refine ⟨"IndexError", ?_⟩
      unfold ExpandMatMulPure.make_sdfg get_matmul_inputs
      simp only [List.foldlM_cons, List.foldlM_nil, hca, hnone]
      rfl
    · by_cases h2a : 2 ≤ (squeezeSizes ea.subset).length
      · obtain ⟨m, hma⟩ := pyNegIdx_isSome_of_le (by omega) h2a
        obtain ⟨k, hka⟩ :=
          pyNegIdx_isSome_of_le (le_refl 1) (by omega : 1 ≤ (squeezeSizes ea.subset).length)
        have hnone : pyNegIdx (squeezeSizes eb.subset) 2 = none := by
          unfold pyNegIdx
          rw [if_neg (by omega)]
        refine ⟨"IndexError", ?_⟩
        unfold ExpandMatMulPure.make_sdfg get_matmul_inputs
        simp only [List.foldlM_cons, List.foldlM_nil, hca, hcb, hma, hka, hnone]
        rfl
      · have hnone : pyNegIdx (squeezeSizes ea.subset) 2 = none := by
          unfold pyNegIdx
          rw [if_neg (by omega)]
        refine ⟨"IndexError", ?_⟩
        unfold ExpandMatMulPure.make_sdfg get_matmul_inputs
        simp only [List.foldlM_cons, List.foldlM_nil, hca, hnone]
        rfl

/-- C6 counterexample: the squeezed subset of input `_a` has rank 3, not 2,
yet `make_sdfg` raises no error: it silently builds the nested SDFG from the
last two dimensions and outputs shape `(2, 4)` as if the input were a matrix. -/
theorem ExpandMatMulPure_make_sdfg_rank3_counterexample :
    (squeezeSizes ((⟨"_a","A",[5,2,3]⟩ : MEdge).subset)).length = 3 ∧
    ExpandMatMulPure.make_sdfg c6Arrays [⟨"_a","A",[5,2,3]⟩, ⟨"_b","B",[3,4]⟩] =
      .ok ⟨[2,3],[3,4],[2,4],0⟩ := by
  refine ⟨by decide, by decide⟩

/-- C6 witness: the amended theorem applied to the concrete 2x3 by 3x4
product with agreeing inner dimension and storage. -/
theorem ExpandMatMulPure_make_sdfg_amended_witness :
    ExpandMatMulPure.make_sdfg mmArrays0 [⟨"_a","A",[2,3]⟩, ⟨"_b","B",[3,4]⟩] =
      .ok ⟨[2,3],[3,4],[2,4],(mmArrays0 "A").storage⟩ :=
  ((ExpandMatMulPure_make_sdfg_amended mmArrays0 ⟨"_a","A",[2,3]⟩ ⟨"_b","B",[3,4]⟩
      (by decide) (by decide)).1 2 3 3 4
      (by decide) (by decide) (by decide) (by decide)).1 (by decide) (by decide)

lemma mem_foldl_append {α β : Type} (l : List α) (f : α → List β) (init : List β) (x : β) :
    x ∈ l.foldl (fun acc a => acc ++ f a) init ↔ x ∈ init ∨ ∃ a ∈ l, x ∈ f a := by
  induction l generalizing init with
  | nil => simp
  | cons a t ih =>
      rw [List.foldl_cons, ih]
      simp [List.mem_append, or_assoc]

lemma accessData_some {n : GNode} {d : String} (h : accessData n = some d) :
    n.kind = .access d := by
  rcases n with ⟨i, k⟩
  cases k with
  | access d2 =>
      simp [accessData] at h
      subst h
      rfl
  | code => simp [accessData] at h
  | entry => simp [accessData] at h
  | exitNode => simp [accessData] at h
  | nested => simp [accessData] at h

lemma mem_internal_outputs {comps : List (GNode × GNode)} {edges : List GEdge} {a : String}
    (h : a ∈ MapFission.internal_outputs comps edges) :
    ∃ comp ∈ comps, ∃ e ∈ outEdgesOf edges comp.2, accessData e.dst = some a := by
  unfold MapFission.internal_outputs at h
  rw [mem_foldl_append] at h
  rcases h with h | ⟨comp, hcomp, hmem⟩
  · cases h
  · rw [List.mem_filterMap] at hmem
    obtain ⟨e, he, hacc⟩ := hmem
    exact ⟨comp, hcomp, e, he, hacc⟩

/-- C3 (amended): `MapFission.can_be_applied` (bare-map variant) returns
`false` whenever the map has dynamic-range inputs, or the scope subgraph is
non-empty with at most one computational component, or some border array is
non-transient, or some border array is also accessed outside the matched
subgraph (elsewhere in the state or in another state).  (The non-emptiness
proviso is forced: `len(snodes) > 0 and len(components) <= 1` does not reject
an empty scope, see the counterexample.) -/
theorem MapFission_can_be_applied_rejects (g : FissionCtx)
    (h : g.dynamicRange = true ∨
         (g.sgNodes ≠ [] ∧ (MapFission.components g.sgTop g.exitOf).length ≤ 1) ∨
         (∃ a ∈ MapFission.scope_border g, g.transient a = false) ∨
         (∃ a ∈ MapFission.scope_border g, a ∈ MapFission.outside_data g)) :
    MapFission.can_be_applied g = false := by
  by_contra hne
  have htrue : MapFission.can_be_applied g = true := by
    cases hcb : MapFission.can_be_applied g
    · exact absurd hcb hne
    · rfl
  unfold MapFission.can_be_applied at htrue
  split at htrue
  · cases htrue
  · next hdyn =>
      dsimp only at htrue
      split at htrue
      · cases htrue
      · next h1 =>
          split at htrue
          · cases htrue
          · next hext =>
              split at htrue
              · cases htrue
              · next htrans =>
                  split at htrue
                  · cases htrue
                  · next hout =>
                      rcases h with h | ⟨hne2, hle⟩ | ⟨a, hmem, htr⟩ | ⟨a, hmem, houtside⟩
                      · exact hdyn h
                      · exact h1 ⟨List.length_pos.mpr hne2, hle⟩
                      · refine htrans (List.any_eq_true.mpr ⟨a, hmem, ?_⟩)
                        simp [htr]
                      · rw [List.any_eq_true] at hext
                        push_neg at hext
                        have hin := hext a hmem
                        simp at hin
                        obtain ⟨comp, hcomp, e, he, hacc⟩ :=
                          mem_internal_outputs hin.2
                        refine hout (List.any_eq_true.mpr ⟨comp, hcomp,
                          List.any_eq_true.mpr ⟨e, he, ?_⟩⟩)
                        rw [accessData_some hacc]
                        exact decide_eq_true houtside

/-- C3 counterexample: an empty map scope has zero computational components
(certainly at most one), yet `can_be_applied` reports the candidate as
applicable, because the guard `len(snodes) > 0 and len(components) <= 1`
does not fire on an empty subgraph. -/
theorem MapFission_empty_scope_counterexample :
    (MapFission.components emptyScopeCtx.sgTop emptyScopeCtx.exitOf).length ≤ 1 ∧
    emptyScopeCtx.dynamicRange = false ∧
    MapFission.can_be_applied emptyScopeCtx = true := by
  refine ⟨by decide, rfl, by decide⟩

/-- C3 witness: the rejection theorem applied to a concrete dynamic-range
candidate. -/
theorem MapFission_can_be_applied_rejects_witness :
    dynRangeCtx.dynamicRange = true ∧
    MapFission.can_be_applied dynRangeCtx = false :=
  ⟨rfl, MapFission_can_be_applied_rejects dynRangeCtx (Or.inl rfl)⟩

lemma augment_fold (mapsize : List Nat) (d : ArrayDesc) :
    (mapsize.reverse.foldl
      (fun d sz =>
        { d with
            strides := d.total_size :: d.strides
            total_size := d.total_size * sz }) d) =
    { d with strides := stridePrefix d.total_size mapsize ++ d.strides,
             total_size := d.total_size * mapsize.prod } := by
  induction mapsize with
  | nil => simp [stridePrefix]
  | cons s rest ih =>
      rw [List.reverse_cons, List.foldl_append, ih]
      simp [stridePrefix, List.foldl, Nat.mul_assoc, Nat.mul_comm, Nat.mul_left_comm]

lemma stridePrefix_length (t : Nat) (ms : List Nat) :
    (stridePrefix t ms).length = ms.length := by
  induction ms with
  | nil => rfl
  | cons s rest ih => simp [stridePrefix, ih]

/-- C4: after `MapFission.apply`, every border array's descriptor has exactly
`len(mapsize)` extra leading dimensions, equal to the outer map's range
sizes, with correspondingly prepended strides and zero offsets, and with the
total size multiplied by the product of the outer range sizes; descriptors of
non-border arrays are untouched. -/
theorem MapFission_apply_augments_border_arrays (mapsize : List Nat)
    (borders : List String) (reg : String → ArrayDesc) (name : String)
    (hmem : name ∈ borders) :
    (MapFission.apply_augment mapsize borders reg name).shape
        = mapsize ++ (reg name).shape ∧
    (MapFission.apply_augment mapsize borders reg name).shape.length
        = mapsize.length + (reg name).shape.length ∧
    (MapFission.apply_augment mapsize borders reg name).strides
        = stridePrefix (reg name).total_size mapsize ++ (reg name).strides ∧
    (MapFission.apply_augment mapsize borders reg name).strides.length
        = mapsize.length + (reg name).strides.length ∧
    (MapFission.apply_augment mapsize borders reg name).offset
        = List.replicate mapsize.length 0 ++ (reg name).offset ∧
    (MapFission.apply_augment mapsize borders reg name).total_size
        = (reg name).total_size * mapsize.prod ∧
    (∀ other, other ∉ borders →
        MapFission.apply_augment mapsize borders reg other = reg other) := by
  unfold MapFission.apply_augment
  rw [if_pos hmem]
  unfold MapFission.augment_array
  rw [augment_fold]
  refine ⟨rfl, by simp, rfl, by simp [stridePrefix_length], rfl, rfl, ?_⟩
  intro other hother
  rw [if_neg hother]

/-- C4 witness: augmenting a 10x20 transient over a 2-dimensional outer map
range of sizes [3, 4]. -/
theorem MapFission_apply_augments_border_arrays_witness :
    (MapFission.apply_augment [3, 4] ["tmp"]
        (fun _ => ⟨[10, 20], [20, 1], 200, [0, 0]⟩) "tmp").shape = [3, 4, 10, 20] ∧
    (MapFission.apply_augment [3, 4] ["tmp"]
        (fun _ => ⟨[10, 20], [20, 1], 200, [0, 0]⟩) "tmp").strides = [800, 200, 20, 1] ∧
    (MapFission.apply_augment [3, 4] ["tmp"]
        (fun _ => ⟨[10, 20], [20, 1], 200, [0, 0]⟩) "tmp").total_size = 2400 := by
  have h := MapFission_apply_augments_border_arrays [3, 4] ["tmp"]
    (fun _ => ⟨[10, 20], [20, 1], 200, [0, 0]⟩) "tmp" (by decide)
  refine ⟨?_, ?_, ?_⟩
  · rw [h.1]
    decide
  · rw [h.2.2.1]
    decide
  · rw [h.2.2.2.2.2.1]
    decide

/-- C5: `MapFission.apply` creates exactly one new entry/exit pair per
computational component, each sharing a `Map` whose range, schedule and
unroll attributes equal those of the original outer map, and removes the
original entry/exit pair from the graph at the end. -/
theorem MapFission_apply_new_maps_spec (outer : MapAttrs) (comps : List (GNode × GNode))
    (nodes : List GNode) (map_entry map_exit : GNode) (newNodes : List GNode) :
    (MapFission.new_component_maps outer comps).length = comps.length ∧
    (∀ m ∈ MapFission.new_component_maps outer comps,
      m.range = outer.range ∧ m.schedule = outer.schedule ∧ m.unroll = outer.unroll) ∧
    map_entry ∉ MapFission.apply_remove_outer nodes map_entry map_exit newNodes ∧
    map_exit ∉ MapFission.apply_remove_outer nodes map_entry map_exit newNodes := by
  refine ⟨List.length_map _ _, ?_, ?_, ?_⟩
  · intro m hm
    rw [MapFission.new_component_maps, List.mem_map] at hm
    obtain ⟨c, -, rfl⟩ := hm
    exact ⟨rfl, rfl, rfl⟩
  · intro hmem
    rw [MapFission.apply_remove_outer, List.mem_filter] at hmem
    simp at hmem
  · intro hmem
    rw [MapFission.apply_remove_outer, List.mem_filter] at hmem
    simp at hmem

lemma reconnect_nested_in_length (arrays : String → ArrayDesc) :
    ∀ inEdges : List OuterEdge,
      (∀ e ∈ inEdges, ∃ cn, e.dst_conn = some cn ∧ strStartsWith cn "IN_" = true) →
      (MapFission.reconnect_nested_in arrays inEdges).length = inEdges.length := by
  intro inEdges hin
  induction inEdges with
  | nil => rfl
  | cons e t ih =>
      obtain ⟨cn, hcn, hpre⟩ := hin e (by simp)
      rw [MapFission.reconnect_nested_in, List.filterMap_cons]
      simp only [hcn, hpre, if_pos]
      rw [List.length_cons, ← MapFission.reconnect_nested_in,
        ih (fun e2 he2 => hin e2 (by simp [he2]))]
      rfl

/-- C9: for an accepted nested-SDFG fission candidate (whose map has no
dynamic-range inputs, so every in-connector starts with `IN_`), every edge
connecting the outer graph to the nested-SDFG node after `apply` carries a
memlet subset covering the entire corresponding outer array, on both the
inbound and the outbound side, with no boundary edge dropped. -/
theorem MapFission_nested_boundary_full_subsets (arrays : String → ArrayDesc)
    (inE outE : List OuterEdge)
    (hin : ∀ e ∈ inE, ∃ cn, e.dst_conn = some cn ∧ strStartsWith cn "IN_" = true) :
    (MapFission.reconnect_nested_in arrays inE).length = inE.length ∧
    (∀ e ∈ MapFission.reconnect_nested_in arrays inE,
        e.subset = Range.from_array (arrays e.data)) ∧
    (MapFission.reconnect_nested_out arrays outE).length = outE.length ∧
    (∀ e ∈ MapFission.reconnect_nested_out arrays outE,
        e.subset = Range.from_array (arrays e.data)) := by
  refine ⟨reconnect_nested_in_length arrays inE hin, ?_, List.length_map _ _, ?_⟩
  · intro e he
    rw [MapFission.reconnect_nested_in, List.mem_filterMap] at he
    obtain ⟨e0, -, hf⟩ := he
    rcases hcn : e0.dst_conn with _ | cn
    · rw [hcn] at hf
      cases hf
    · rw [hcn] at hf
      dsimp only at hf
      by_cases hpre : strStartsWith cn "IN_"
      · rw [if_pos hpre] at hf
        injection hf with hf
        subst hf
        rfl
      · rw [if_neg hpre] at hf
        cases hf
  · intro e he
    rw [MapFission.reconnect_nested_out, List.mem_map] at he
    obtain ⟨e0, -, rfl⟩ := he
    rfl

/-- C9 witness: one inbound `IN_1` edge and one outbound edge over 4x5 and
3x2 arrays are both rewritten to full-array subsets. -/
theorem MapFission_nested_boundary_full_subsets_witness :
    (MapFission.reconnect_nested_in
        (fun _ => ⟨[4, 5], [5, 1], 20, [0, 0]⟩)
        [⟨some "IN_1", none, "A", [(2, 2, 1), (0, 4, 1)]⟩]).length = 1 ∧
    (∀ e ∈ MapFission.reconnect_nested_in
        (fun _ => ⟨[4, 5], [5, 1], 20, [0, 0]⟩)
        [⟨some "IN_1", none, "A", [(2, 2, 1), (0, 4, 1)]⟩],
      e.subset = Range.from_array ((fun _ => ⟨[4, 5], [5, 1], 20, [0, 0]⟩) e.data)) :=
  ⟨(MapFission_nested_boundary_full_subsets
      (fun _ => ⟨[4, 5], [5, 1], 20, [0, 0]⟩)
      [⟨some "IN_1", none, "A", [(2, 2, 1), (0, 4, 1)]⟩] []
      (fun e he => ⟨"IN_1", by
        simp only [List.mem_singleton] at he
        subst he
        exact ⟨rfl, by decide⟩⟩)).1,
   (MapFission_nested_boundary_full_subsets
      (fun _ => ⟨[4, 5], [5, 1], 20, [0, 0]⟩)
      [⟨some "IN_1", none, "A", [(2, 2, 1), (0, 4, 1)]⟩] []
      (fun e he => ⟨"IN_1", by
        simp only [List.mem_singleton] at he
        subst he
        exact ⟨rfl, by decide⟩⟩)).2.1⟩

lemma fpga_fold (consts : String → Option Int) (shared : List String) :
    ∀ (arrs : List (String × FDesc)) (acc : List (String × FDesc) × Nat),
      arrs.foldl (FPGAGlobalToLocal.step consts shared) acc =
        (acc.1 ++ arrs.map (fun nd =>
            if FPGAGlobalToLocal.qualifies consts shared nd = true
            then (nd.1, { nd.2 with storage := StorageType.FPGA_Local }) else nd),
         acc.2 + (arrs.filter (FPGAGlobalToLocal.qualifies consts shared)).length) := by
  intro arrs
  induction arrs with
  | nil => intro acc; simp
  | cons nd t ih =>
      intro acc
      rw [List.foldl_cons, ih]
      by_cases h1 : nd.2.transient = true ∧ nd.1 ∉ shared ∧
          nd.2.storage = StorageType.FPGA_Global
      · rcases hres : resolve_symbol_to_constant consts nd.2.total_size with _ | v
        · have hq : FPGAGlobalToLocal.qualifies consts shared nd = false := by
            simp [FPGAGlobalToLocal.qualifies, hres]
          simp [FPGAGlobalToLocal.step, h1, hres, hq]
        · have hq : FPGAGlobalToLocal.qualifies consts shared nd = true := by
            simp [FPGAGlobalToLocal.qualifies, h1, hres]
          simp [FPGAGlobalToLocal.step, h1, hres, hq]
          omega
      · have hq : FPGAGlobalToLocal.qualifies consts shared nd = false := by
          simp only [FPGAGlobalToLocal.qualifies, Bool.and_eq_false_iff]
          left
          simpa using h1
        simp [FPGAGlobalToLocal.step, h1, hq]


lemma GraphOp.read_readOnly {σ α : Type} (f : σ → α) :
    GraphOp.ReadOnly (GraphOp.read f) :=
  fun _ => rfl

lemma GraphOp.pureOp_readOnly {σ α : Type} (a : α) :
    GraphOp.ReadOnly (@GraphOp.pureOp σ α a) :=
  fun _ => rfl

lemma GraphOp.bind_readOnly {σ α β : Type} {m : GraphOp σ α} {f : α → GraphOp σ β}
    (hm : GraphOp.ReadOnly m) (hf : ∀ a, GraphOp.ReadOnly (f a)) :
    GraphOp.ReadOnly (GraphOp.bind m f) := by
  intro g
  show (f (m g).1 (m g).2).2 = g
  rw [hm g]
  exact hf (m g).1 g

/-- Read-onliness is not vacuous in this semantics: a mutation fails it. -/
lemma GraphOp.write_not_readOnly :
    ¬ GraphOp.ReadOnly (GraphOp.write (fun n : Nat => n + 1)) := by
  intro h
  have := h 0
  simp [GraphOp.write] at this

lemma GraphOp.anyOp_readOnly {σ α : Type} (f : α → GraphOp σ Bool)
    (hf : ∀ a, GraphOp.ReadOnly (f a)) :
    ∀ l : List α, GraphOp.ReadOnly (GraphOp.anyOp l f) := by
  intro l
  induction l with
  | nil => intro g; rfl
  | cons a t ih =>
      have hstep : GraphOp.anyOp (a :: t) f =
          GraphOp.bind (f a)
            (fun b => if b then GraphOp.pureOp true else GraphOp.anyOp t f) := rfl
      rw [hstep]
      refine GraphOp.bind_readOnly (hf a) ?_
      intro b
      cases b
      · exact ih
      · exact fun g => rfl

lemma GraphOp.anyOp_run {σ α : Type} (f : α → GraphOp σ Bool) (p : σ → α → Bool)
    (hf : ∀ a g, f a g = (p g a, g)) :
    ∀ (l : List α) (g : σ), GraphOp.anyOp l f g = (l.any (p g), g) := by
  intro l
  induction l with
  | nil => intro g; rfl
  | cons a t ih =>
      intro g
      show GraphOp.bind (f a)
        (fun b => if b then GraphOp.pureOp true else GraphOp.anyOp t f) g = _
      unfold GraphOp.bind
      rw [hf a g]
      cases hb : p g a
      · simp only [List.any_cons, hb, Bool.false_or, if_neg Bool.false_ne_true]
        exact ih g
      · simp [GraphOp.pureOp, List.any_cons, hb]

lemma MapFission_can_be_applied_st_run (g : FissionCtx) :
    MapFission.can_be_applied_st g = (MapFission.can_be_applied g, g) := by
  have e1 := GraphOp.anyOp_run
    (fun (a : String) => GraphOp.bind (GraphOp.read (fun (s : FissionCtx) => s.transient a))
      (fun t => GraphOp.pureOp (!t)))
    (fun (s : FissionCtx) (a : String) => !(s.transient a)) (fun _ _ => rfl)
    (MapFission.scope_border g) g
  have e2 := GraphOp.anyOp_run
    (fun (comp : GNode × GNode) =>
      GraphOp.bind (GraphOp.read (fun (s : FissionCtx) => outEdgesOf s.sgEdges comp.2))
      (fun es =>
        GraphOp.pureOp (es.any (fun e =>
          (match e.dst.kind with
           | .access d => decide (d ∈ MapFission.outside_data g)
           | _ => false)))))
    (fun (s : FissionCtx) (comp : GNode × GNode) =>
      (outEdgesOf s.sgEdges comp.2).any (fun e =>
        (match e.dst.kind with
         | .access d => decide (d ∈ MapFission.outside_data g)
         | _ => false)))
    (fun _ _ => rfl)
    (MapFission.components g.sgTop g.exitOf) g
  unfold MapFission.can_be_applied_st MapFission.can_be_applied
  by_cases h1 : g.dynamicRange = true
  · simp [GraphOp.bind, GraphOp.read, GraphOp.pureOp, h1]
  · by_cases h2 : 0 < g.sgNodes.length ∧
        (MapFission.components g.sgTop g.exitOf).length ≤ 1
    · simp [GraphOp.bind, GraphOp.read, GraphOp.pureOp, h1, h2]
    · by_cases h3 : ∃ x ∈ MapFission.scope_border g,
          x ∉ MapFission.internal_inputs (MapFission.components g.sgTop g.exitOf) g.sgEdges ∨
          x ∉ MapFission.internal_outputs (MapFission.components g.sgTop g.exitOf) g.sgEdges
      · simp [GraphOp.bind, GraphOp.read, GraphOp.pureOp, e1, e2, h1, h2, h3]
      · by_cases h4 : ∃ x ∈ MapFission.scope_border g, g.transient x = false
        · simp [GraphOp.bind, GraphOp.read, GraphOp.pureOp, e1, e2, h1, h2, h3, h4]
        · by_cases h5 : ((MapFission.components g.sgTop g.exitOf).any fun comp =>
              (outEdgesOf g.sgEdges comp.2).any fun e =>
                (match e.dst.kind with
                 | NKind.access d => decide (d ∈ MapFission.outside_data g)
                 | _ => false)) = true
          · simp [GraphOp.bind, GraphOp.read, GraphOp.pureOp, e1, e2, h1, h2, h3, h4, h5]
          · simp [GraphOp.bind, GraphOp.read, GraphOp.pureOp, e1, e2, h1, h2, h3, h4, h5]

lemma GraphOp.ite_readOnly {σ α : Type} {c : Prop} [Decidable c] {m1 m2 : GraphOp σ α}
    (h1 : GraphOp.ReadOnly m1) (h2 : GraphOp.ReadOnly m2) :
    GraphOp.ReadOnly (if c then m1 else m2) := by
  by_cases hc : c
  · rw [if_pos hc]
    exact h1
  · rw [if_neg hc]
    exact h2

lemma MapFission_can_be_applied_st_readOnly :
    GraphOp.ReadOnly MapFission.can_be_applied_st := by
  unfold MapFission.can_be_applied_st
  refine GraphOp.bind_readOnly (GraphOp.read_readOnly _) (fun dyn => ?_)
  refine GraphOp.ite_readOnly (GraphOp.pureOp_readOnly _) ?_
  refine GraphOp.bind_readOnly (GraphOp.read_readOnly _) (fun comps => ?_)
  refine GraphOp.bind_readOnly (GraphOp.read_readOnly _) (fun snodes => ?_)
  refine GraphOp.ite_readOnly (GraphOp.pureOp_readOnly _) ?_
  refine GraphOp.bind_readOnly (GraphOp.read_readOnly _) (fun border => ?_)
  refine GraphOp.bind_readOnly (GraphOp.read_readOnly _) (fun internalIn => ?_)
  refine GraphOp.bind_readOnly (GraphOp.read_readOnly _) (fun internalOut => ?_)
  refine GraphOp.ite_readOnly (GraphOp.pureOp_readOnly _) ?_
  refine GraphOp.bind_readOnly
    (GraphOp.anyOp_readOnly _
      (fun a => GraphOp.bind_readOnly (GraphOp.read_readOnly _)
        (fun t => GraphOp.pureOp_readOnly _)) _)
    (fun transFail => ?_)
  refine GraphOp.ite_readOnly (GraphOp.pureOp_readOnly _) ?_
  refine GraphOp.bind_readOnly (GraphOp.read_readOnly _) (fun notSub => ?_)
  refine GraphOp.bind_readOnly
    (GraphOp.anyOp_readOnly _
      (fun comp => GraphOp.bind_readOnly (GraphOp.read_readOnly _)
        (fun es => GraphOp.pureOp_readOnly _)) _)
    (fun outsideFail => ?_)
  exact GraphOp.ite_readOnly (GraphOp.pureOp_readOnly _) (GraphOp.pureOp_readOnly _)

/-- C7: the matching stage never mutates the graph.  Under the
state-threading semantics, the translation of `MapFission.can_be_applied`
(built exclusively from `GraphOp.read` queries; read-onliness is derived
compositionally, not assumed, and a `GraphOp.write` falsifies it) hands back
the graph it was given on every candidate and computes the same verdict as
the direct embedding, whether the verdict is `true` or `false`; likewise
`FPGAGlobalToLocal.can_be_applied`, whose body is `return True`. -/
theorem matching_stage_read_only :
    GraphOp.ReadOnly MapFission.can_be_applied_st ∧
    (∀ g : FissionCtx, MapFission.can_be_applied_st g =
        (MapFission.can_be_applied g, g)) ∧
    (∀ (G : Type) (g : G), FPGAGlobalToLocal.can_be_applied_st g =
        (FPGAGlobalToLocal.can_be_applied g, g)) :=
  ⟨MapFission_can_be_applied_st_readOnly,
   MapFission_can_be_applied_st_run,
   fun _ _ => rfl⟩

lemma fpga_outer_fold (consts : String → Option Int) (shared : List String) :
    ∀ (arrs : List (String × FDesc)) (acc : List (String × FDesc) × List NSdfgNode × Nat),
      arrs.foldl (FPGAGlobalToLocal.outer_step consts shared) acc =
        (acc.1 ++ arrs.map (fun nd =>
            if FPGAGlobalToLocal.qualifies consts shared nd = true
            then (nd.1, { nd.2 with storage := StorageType.FPGA_Local }) else nd),
         (arrs.filter (FPGAGlobalToLocal.qualifies consts shared)).foldl
            (fun Ns q => Ns.map (FPGAGlobalToLocal.update_aliases q.1)) acc.2.1,
         acc.2.2 + (arrs.filter (FPGAGlobalToLocal.qualifies consts shared)).length) := by
  intro arrs
  induction arrs with
  | nil => intro acc; simp
  | cons nd t ih =>
      intro acc
      rw [List.foldl_cons, ih]
      by_cases h1 : nd.2.transient = true ∧ nd.1 ∉ shared ∧
          nd.2.storage = StorageType.FPGA_Global
      · rcases hres : resolve_symbol_to_constant consts nd.2.total_size with _ | v
        · have hq : FPGAGlobalToLocal.qualifies consts shared nd = false := by
            simp [FPGAGlobalToLocal.qualifies, hres]
          simp [FPGAGlobalToLocal.outer_step, h1, hres, hq]
        · have hq : FPGAGlobalToLocal.qualifies consts shared nd = true := by
            simp [FPGAGlobalToLocal.qualifies, h1, hres]
          simp [FPGAGlobalToLocal.outer_step, h1, hres, hq]
          omega
      · have hq : FPGAGlobalToLocal.qualifies consts shared nd = false := by
          simp only [FPGAGlobalToLocal.qualifies, Bool.and_eq_false_iff]
          left
          simpa using h1
        simp [FPGAGlobalToLocal.outer_step, h1, hq]

lemma foldl_map_map {α β : Type} (l : List α) (u : α → β → β) (Ns : List β) :
    l.foldl (fun Ns a => Ns.map (u a)) Ns =
      Ns.map (fun N => l.foldl (fun N a => u a N) N) := by
  induction l generalizing Ns with
  | nil => simp
  | cons a t ih =>
      rw [List.foldl_cons, ih, List.map_map]
      rfl

lemma applyAll_update_aliases (quals : List (String × FDesc)) :
    ∀ N : NSdfgNode,
      quals.foldl (fun N q => FPGAGlobalToLocal.update_aliases q.1 N) N =
      { N with arrays := N.arrays.map (fun nd =>
          if quals.any (fun q => decide ((nd.1, q.1) ∈ N.aliases)) = true then
            (nd.1, { nd.2 with storage := StorageType.FPGA_Local })
          else nd) } := by
  induction quals with
  | nil =>
      intro N
      simp
  | cons q t ih =>
      intro N
      rw [List.foldl_cons, ih]
      unfold FPGAGlobalToLocal.update_aliases
      simp only [List.map_map, List.any_cons]
      congr 1
      apply List.map_congr_left
      intro nd _
      by_cases h1 : (nd.1, q.1) ∈ N.aliases
      · by_cases h2 : t.any (fun q2 => decide ((nd.1, q2.1) ∈ N.aliases)) = true
        · simp [Function.comp, h1, h2]
        · simp [Function.comp, h1, h2]
      · by_cases h2 : t.any (fun q2 => decide ((nd.1, q2.1) ∈ N.aliases)) = true
        · simp [Function.comp, h1, h2]
        · simp [Function.comp, h1, h2]

lemma fpga_nested_sweep (consts : String → Option Int) :
    ∀ (Ns : List NSdfgNode) (acc : List NSdfgNode × Nat),
      Ns.foldl (FPGAGlobalToLocal.nested_step consts) acc =
        (acc.1 ++ Ns.map (fun N =>
            { N with arrays := N.arrays.map (fun nd =>
                if FPGAGlobalToLocal.qualifies consts N.shared nd = true
                then (nd.1, { nd.2 with storage := StorageType.FPGA_Local }) else nd) }),
         acc.2 + (Ns.map (fun N =>
            (N.arrays.filter (FPGAGlobalToLocal.qualifies consts N.shared)).length)).sum) := by
  intro Ns
  induction Ns with
  | nil => intro acc; simp
  | cons N t ih =>
      intro acc
      rw [List.foldl_cons, ih]
      unfold FPGAGlobalToLocal.nested_step
      rw [fpga_fold]
      simp [Nat.add_assoc]

lemma qualifies_local_false (consts : String → Option Int) (shared : List String)
    (x : String) (d : FDesc) :
    FPGAGlobalToLocal.qualifies consts shared
      (x, { d with storage := StorageType.FPGA_Local }) = false := by
  simp [FPGAGlobalToLocal.qualifies]

lemma fpga_alias_sweep_node (consts : String → Option Int) (sdfg : OSdfg) (N : NSdfgNode) :
    (fun M : NSdfgNode => { M with arrays := M.arrays.map (fun nd =>
        if FPGAGlobalToLocal.qualifies consts M.shared nd = true
        then (nd.1, { nd.2 with storage := StorageType.FPGA_Local }) else nd) })
      ((sdfg.arrays.filter (FPGAGlobalToLocal.qualifies consts sdfg.shared)).foldl
        (fun M q => FPGAGlobalToLocal.update_aliases q.1 M) N) =
    { N with arrays := N.arrays.map (fun nd =>
        if FPGAGlobalToLocal.alias_hit consts sdfg N nd.1 = true
        then (nd.1, { nd.2 with storage := StorageType.FPGA_Local })
        else if FPGAGlobalToLocal.qualifies consts N.shared nd = true
        then (nd.1, { nd.2 with storage := StorageType.FPGA_Local })
        else nd) } := by
  rw [applyAll_update_aliases]
  dsimp only
  rw [List.map_map]
  congr 1
  apply List.map_congr_left
  intro nd _
  unfold FPGAGlobalToLocal.alias_hit
  by_cases ha : (sdfg.arrays.filter (FPGAGlobalToLocal.qualifies consts sdfg.shared)).any
      (fun q => decide ((nd.1, q.1) ∈ N.aliases)) = true
  · simp [Function.comp, ha, qualifies_local_false]
  · simp [Function.comp, ha]

lemma fpga_alias_sweep_count (consts : String → Option Int) (sdfg : OSdfg) (N : NSdfgNode) :
    (fun M : NSdfgNode =>
        (M.arrays.filter (FPGAGlobalToLocal.qualifies consts M.shared)).length)
      ((sdfg.arrays.filter (FPGAGlobalToLocal.qualifies consts sdfg.shared)).foldl
        (fun M q => FPGAGlobalToLocal.update_aliases q.1 M) N) =
    (N.arrays.filter (fun nd =>
        !(FPGAGlobalToLocal.alias_hit consts sdfg N nd.1) &&
        FPGAGlobalToLocal.qualifies consts N.shared nd)).length := by
  rw [applyAll_update_aliases]
  dsimp only
  rw [List.filter_map, List.length_map]
  congr 1
  apply List.filter_congr
  intro nd _
  unfold FPGAGlobalToLocal.alias_hit
  by_cases ha : (sdfg.arrays.filter (FPGAGlobalToLocal.qualifies consts sdfg.shared)).any
      (fun q => decide ((nd.1, q.1) ∈ N.aliases)) = true
  · simp [Function.comp, ha, qualifies_local_false]
  · simp [Function.comp, ha]

lemma fpga_nested_maps (consts : String → Option Int) (sdfg : OSdfg) :
    (sdfg.nested.map (fun N =>
        (sdfg.arrays.filter (FPGAGlobalToLocal.qualifies consts sdfg.shared)).foldl
          (fun M q => FPGAGlobalToLocal.update_aliases q.1 M) N)).map
      (fun M : NSdfgNode => { M with arrays := M.arrays.map (fun nd =>
          if FPGAGlobalToLocal.qualifies consts M.shared nd = true
          then (nd.1, { nd.2 with storage := StorageType.FPGA_Local }) else nd) }) =
    sdfg.nested.map (fun N => { N with arrays := N.arrays.map (fun nd =>
        if FPGAGlobalToLocal.alias_hit consts sdfg N nd.1 = true
        then (nd.1, { nd.2 with storage := StorageType.FPGA_Local })
        else if FPGAGlobalToLocal.qualifies consts N.shared nd = true
        then (nd.1, { nd.2 with storage := StorageType.FPGA_Local })
        else nd) }) := by
  rw [List.map_map]
  exact List.map_congr_left (fun N _ => fpga_alias_sweep_node consts sdfg N)

lemma fpga_nested_counts (consts : String → Option Int) (sdfg : OSdfg) :
    (sdfg.nested.map (fun N =>
        (sdfg.arrays.filter (FPGAGlobalToLocal.qualifies consts sdfg.shared)).foldl
          (fun M q => FPGAGlobalToLocal.update_aliases q.1 M) N)).map
      (fun M : NSdfgNode =>
        (M.arrays.filter (FPGAGlobalToLocal.qualifies consts M.shared)).length) =
    sdfg.nested.map (fun N => (N.arrays.filter (fun nd =>
        !(FPGAGlobalToLocal.alias_hit consts sdfg N nd.1) &&
        FPGAGlobalToLocal.qualifies consts N.shared nd)).length) := by
  rw [List.map_map]
  exact List.map_congr_left (fun N _ => fpga_alias_sweep_count consts sdfg N)

/-- C8 (amended): over a nested SDFG, `apply` reclassifies to `FPGA_Local`
exactly the descriptors qualifying at visit time -- transient, not shared,
`FPGA_Global`, constant total size -- *plus* every nested descriptor whose
access nodes trace to a qualifying outer array (the access-node update loop,
lines 57-73), regardless of that nested descriptor's own qualification.  The
count counts only the visit-time-qualifying descriptors: a nested descriptor
already turned `FPGA_Local` by the update loop no longer qualifies and is
not counted.  The `debugprint` flag selects only whether the
`Applied N GlobalToLocal.` line is produced. -/
theorem FPGAGlobalToLocal_apply_nested_spec (consts : String → Option Int)
    (sdfg : OSdfg) (debugprint : Bool) :
    FPGAGlobalToLocal.apply consts sdfg debugprint =
      ({ arrays := sdfg.arrays.map (fun nd =>
            if FPGAGlobalToLocal.qualifies consts sdfg.shared nd = true
            then (nd.1, { nd.2 with storage := StorageType.FPGA_Local }) else nd)
         shared := sdfg.shared
         nested := sdfg.nested.map (fun N =>
            { N with arrays := N.arrays.map (fun nd =>
                if FPGAGlobalToLocal.alias_hit consts sdfg N nd.1 = true
                then (nd.1, { nd.2 with storage := StorageType.FPGA_Local })
                else if FPGAGlobalToLocal.qualifies consts N.shared nd = true
                then (nd.1, { nd.2 with storage := StorageType.FPGA_Local })
                else nd) }) },
       (sdfg.arrays.filter (FPGAGlobalToLocal.qualifies consts sdfg.shared)).length +
         (sdfg.nested.map (fun N => (N.arrays.filter (fun nd =>
            !(FPGAGlobalToLocal.alias_hit consts sdfg N nd.1) &&
            FPGAGlobalToLocal.qualifies consts N.shared nd)).length)).sum,
       if debugprint then
         some ("Applied " ++ toString
           ((sdfg.arrays.filter (FPGAGlobalToLocal.qualifies consts sdfg.shared)).length +
            (sdfg.nested.map (fun N => (N.arrays.filter (fun nd =>
               !(FPGAGlobalToLocal.alias_hit consts sdfg N nd.1) &&
               FPGAGlobalToLocal.qualifies consts N.shared nd)).length)).sum) ++
           " GlobalToLocal.")
       else none) := by
  unfold FPGAGlobalToLocal.apply
  rw [fpga_outer_fold]
  dsimp only
  rw [foldl_map_map, fpga_nested_sweep]
  dsimp only
  rw [fpga_nested_maps, fpga_nested_counts]
  simp

/-- C8 counterexample: in `c8Sdfg` the nested connector array `a_in` is
non-transient, so it never qualifies, and it is not `FPGA_Local` initially;
yet after `apply` its storage is `FPGA_Local` -- the access-node update loop
reclassified it as an alias of the qualifying outer array `A` -- and the
count is 1 (only `A` is counted). -/
theorem FPGAGlobalToLocal_alias_counterexample :
    (∀ N ∈ c8Sdfg.nested, ∀ nd ∈ N.arrays,
        FPGAGlobalToLocal.qualifies (fun _ => none) N.shared nd = false ∧
        nd.2.storage ≠ StorageType.FPGA_Local) ∧
    (FPGAGlobalToLocal.apply (fun _ => none) c8Sdfg false).1.nested =
      [{ arrays := [("a_in", ⟨false, StorageType.FPGA_Local, .const 8⟩)],
         shared := [],
         aliases := [("a_in", "A")] }] ∧
    (FPGAGlobalToLocal.apply (fun _ => none) c8Sdfg false).2.1 = 1 := by
  decide
